import Mathlib

/-!
# Touch paint for an ILI9341 panel on ESP32: a verification development

A shallow embedding of `src/main.cpp`.

* `uint16_t` values are naturals reduced modulo `2^16` where the program
  can wrap (`u16`), `unsigned long` is 32 bits wide on the ESP32 (`u32`),
  and the `int` arithmetic of `drawThickLine` is reduced to 32 bits (`i32`).
* Calls into the display library are recorded as a list of `Call`s, in
  program order.  The functions `touch_calibrate`, `saveImage` and
  `loadImage` have their own definitions over an explicit model of the
  flash file system and of the pixel grid.
-/

namespace TouchPaint

/-! ## Constants -/

/-- The `BOXSIZE` preprocessor constant: side of a button, in pixels. -/
def BOXSIZE : Nat := 30

/-- The global `PENRADIUS`; it is initialised to 5 and never assigned. -/
def PENRADIUS : Nat := 5

/-- The global `touch_delay`, in milliseconds. -/
def touch_delay : Nat := 200

/-- The `CALIBRATION_FILE` path. -/
def CALIBRATION_FILE : String := "/TouchCalData"

/-- The path of the canvas dump. -/
def IMAGE_FILE : String := "/image.bin"

/-! The RGB565 colour constants of the display library header. -/

def TFT_BLACK : Nat := 0x0000
def TFT_BLUE : Nat := 0x001F
def TFT_GREEN : Nat := 0x07E0
def TFT_CYAN : Nat := 0x07FF
def TFT_RED : Nat := 0xF800
def TFT_MAGENTA : Nat := 0xF81F
def TFT_YELLOW : Nat := 0xFFE0
def TFT_WHITE : Nat := 0xFFFF
def TFT_ORANGE : Nat := 0xFDA0

/-! ## Machine integers -/

/-- Conversion of an integer to `uint16_t`. -/
def u16 (z : Int) : Nat := (z % 65536).toNat

/-- Conversion of an integer to a 32 bit `unsigned long`. -/
def u32 (z : Int) : Nat := (z % 4294967296).toNat

/-- Reduction of an integer to the range of a 32 bit `int`. -/
def i32 (z : Int) : Int := (z + 2147483648) % 4294967296 - 2147483648

/-- Conversion of a `uint16_t` argument to an `int16_t` parameter. -/
def toInt16 (n : Nat) : Int :=
  if n % 65536 < 32768 then ((n % 65536 : Nat) : Int) else ((n % 65536 : Nat) : Int) - 65536

/-! ## Buttons -/

/-- Modelled from the spec: the button class `TFT_eSPI_Button` belongs to
the display library and is absent from the source.  A button is a bounding
rectangle given by its upper left corner, width and height, with its
outline, fill and text colours and its label. -/
structure TFT_eSPI_Button where
  x1 : Int
  y1 : Int
  w : Int
  h : Int
  outline : Nat
  fill : Nat
  textcolor : Nat
  label : String
  deriving DecidableEq, Repr

/-- A button object before `initButton`: a global object, all zero. -/
def TFT_eSPI_Button.zero : TFT_eSPI_Button :=
  { x1 := 0, y1 := 0, w := 0, h := 0, outline := 0, fill := 0, textcolor := 0, label := "" }

/-- Modelled from the spec: `initButton` of the display library takes the
centre of the button and its size; the rectangle starts half a width to the
left of and half a height above the centre. -/
def initButton (x y : Int) (w h : Nat) (outline fill textcolor : Nat) (label : String) :
    TFT_eSPI_Button :=
  { x1 := x - ((w / 2 : Nat) : Int), y1 := y - ((h / 2 : Nat) : Int), w := w, h := h,
    outline := outline, fill := fill, textcolor := textcolor, label := label }

/-- Modelled from the spec: `contains` of the display library, the hit test
of a point against the bounding rectangle; the coordinates arrive as
`int16_t`. -/
def TFT_eSPI_Button.contains (b : TFT_eSPI_Button) (x y : Nat) : Bool :=
  decide (b.x1 ≤ toInt16 x) && decide (toInt16 x < b.x1 + b.w) &&
  decide (b.y1 ≤ toInt16 y) && decide (toInt16 y < b.y1 + b.h)

/-- The ten button objects of the program. -/
inductive ButtonId where
  | colorButton (i : Nat)
  | clearButton
  | calibrateButton
  | saveButton
  | loadButton
  deriving DecidableEq, Repr

/-! ## Recorded calls -/

/-- The calls the program makes, in program order: display library calls,
serial output, file system calls, and calls of the program's own
`drawThickLine`, `touch_calibrate`, `saveImage` and `loadImage` from
`loop`. -/
inductive Call where
  | drawButton (b : ButtonId) (inverted : Bool)
  | fillScreen (color : Nat)
  | fillCircle (x y r color : Nat)
  | drawThickLine (x0 y0 x1 y1 color : Nat)
  | touch_calibrate
  | saveImage
  | loadImage
  | println (s : String)
  | setTouch (calData : List Nat)
  | calibrateTouch
  | setCursor (x y : Nat)
  | setTextFont (f : Nat)
  | setTextSize (n : Nat)
  | setTextColor (fg bg : Nat)
  | fsOpen (path : String) (mode : String)
  | fsWrite (path : String) (bytes : List Nat)
  | fsClose (path : String)
  deriving DecidableEq, Repr

/-! ## Global variables -/

/-- The global variables of the program. -/
structure Globals where
  oldcolor : Nat
  currentcolor : Nat
  colorButtons : List TFT_eSPI_Button
  clearButton : TFT_eSPI_Button
  calibrateButton : TFT_eSPI_Button
  saveButton : TFT_eSPI_Button
  loadButton : TFT_eSPI_Button
  last_x : Nat
  last_y : Nat
  first_touch : Bool
  last_touch_time : Nat
  deriving DecidableEq, Repr

/-- The globals at program start, as their initialisers give them. -/
def Globals.init : Globals :=
  { oldcolor := 0, currentcolor := 0,
    colorButtons := List.replicate 6 TFT_eSPI_Button.zero,
    clearButton := TFT_eSPI_Button.zero, calibrateButton := TFT_eSPI_Button.zero,
    saveButton := TFT_eSPI_Button.zero, loadButton := TFT_eSPI_Button.zero,
    last_x := 0, last_y := 0, first_touch := true, last_touch_time := 0 }

/-- The colour that both `drawUI` and `loop` select by the chain
`i == 0 ? TFT_RED : i == 1 ? TFT_YELLOW : ...`. -/
def paletteColor (i : Nat) : Nat :=
  if i = 0 then TFT_RED else if i = 1 then TFT_YELLOW else if i = 2 then TFT_GREEN
  else if i = 3 then TFT_CYAN else if i = 4 then TFT_BLUE else TFT_MAGENTA

/-! ## `drawUI` -/

/-- The colour button `i` as `drawUI` initialises it. -/
def drawUI_colorButton (i : Nat) : TFT_eSPI_Button :=
  let buttonGap : Nat := 5
  let startX : Nat := 5
  let startY : Nat := 5
  let x : Nat := startX + i * (BOXSIZE + buttonGap)
  initButton ((x + BOXSIZE / 2 : Nat) : Int) ((startY + BOXSIZE / 2 : Nat) : Int) BOXSIZE BOXSIZE
    TFT_WHITE (paletteColor i) TFT_WHITE ""

/-- The secondary button number `k` (0 clear, 1 calibrate, 2 save, 3 load)
as `drawUI` initialises it on a display `W` pixels wide. -/
def drawUI_secondary (W : Nat) (k : Nat) (fill : Nat) (label : String) : TFT_eSPI_Button :=
  let buttonGap : Nat := 5
  let startY : Nat := 5
  let secondaryStartX : Int := (W : Int) - ((BOXSIZE / 2 : Nat) : Int) - (buttonGap : Int)
  let secondaryStartY : Nat := startY
  initButton secondaryStartX ((secondaryStartY + (BOXSIZE + buttonGap) * k + BOXSIZE / 2 : Nat) : Int)
    BOXSIZE BOXSIZE TFT_WHITE fill TFT_WHITE label

/-- The calls `drawUI` makes, in order. -/
def drawUI_calls : List Call :=
  (List.range 6).map (fun i => Call.drawButton (ButtonId.colorButton i) false) ++
  [Call.drawButton ButtonId.clearButton false, Call.drawButton ButtonId.calibrateButton false,
   Call.drawButton ButtonId.saveButton false, Call.drawButton ButtonId.loadButton false,
   Call.drawButton (ButtonId.colorButton 0) true]

/-- The function `drawUI` on a display `W` pixels wide: it initialises and
draws the ten buttons and selects red. -/
def drawUI (W : Nat) (g : Globals) : Globals × List Call :=
  ({ g with
      colorButtons := (List.range 6).map drawUI_colorButton
      clearButton := drawUI_secondary W 0 TFT_BLACK "CLR"
      calibrateButton := drawUI_secondary W 1 TFT_BLUE "CAL"
      saveButton := drawUI_secondary W 2 TFT_GREEN "SAVE"
      loadButton := drawUI_secondary W 3 TFT_ORANGE "LOAD"
      currentcolor := TFT_RED },
   drawUI_calls)

/-! ## `drawThickLine` -/

/-- The `while (true)` loop of `drawThickLine`.  `fuel` bounds the number of
iterations; the result is `none` when the fuel runs out before the `break`.
The result lists the `fillCircle` calls in order.  `x0` and `y0` are
`uint16_t`, so `x0 += sx` wraps modulo `2^16`; `err` and `e2` are `int`. -/
def drawThickLineLoop (color x1 y1 : Nat) (dx dy sx sy : Int) :
    Nat → Nat → Nat → Int → Option (List Call)
  | 0, _, _, _ => none
  | fuel + 1, x0, y0, err =>
    if x0 = x1 ∧ y0 = y1 then some [Call.fillCircle x0 y0 PENRADIUS color]
    else
      let e2 := i32 (err * 2)
      let err1 := if e2 > -dy then i32 (err - dy) else err
      let x0n := if e2 > -dy then u16 ((x0 : Int) + sx) else x0
      let err2 := if e2 < dx then i32 (err1 + dx) else err1
      let y0n := if e2 < dx then u16 ((y0 : Int) + sy) else y0
      (drawThickLineLoop color x1 y1 dx dy sx sy fuel x0n y0n err2).map
        (fun rest => Call.fillCircle x0 y0 PENRADIUS color :: rest)

/-- The function `drawThickLine`, with a bound on the loop iterations. -/
def drawThickLine (fuel : Nat) (x0 y0 x1 y1 color : Nat) : Option (List Call) :=
  let dx : Int := |(x1 : Int) - (x0 : Int)|
  let dy : Int := |(y1 : Int) - (y0 : Int)|
  let sx : Int := if x0 < x1 then 1 else -1
  let sy : Int := if y0 < y1 then 1 else -1
  let err : Int := dx - dy
  drawThickLineLoop color x1 y1 dx dy sx sy fuel x0 y0 err

/-! ## `loop` -/

/-- The first colour button, in index order, that contains the sample:
the `for` loop at the head of `loop`, which returns at its first hit. -/
def colorHit (g : Globals) (x y : Nat) : Option Nat :=
  (List.range 6).find? (fun i => (g.colorButtons.getD i TFT_eSPI_Button.zero).contains x y)

/-- One run of `loop`.  `W` is `tft.width()`, `touch` is the result of
`tft.getTouch` (`none` when not pressed, else the `uint16_t` pair) and
`current_time` is the value of `millis()`.  The result is the globals after
the run and the calls made. -/
def loop (W : Nat) (touch : Option (Nat × Nat)) (current_time : Nat) (g : Globals) :
    Globals × List Call :=
  match touch with
  | none => ({ g with first_touch := true }, [])
  | some (x, y) =>
    match colorHit g x y with
    | some i =>
      let oldcolor := g.currentcolor
      let currentcolor := paletteColor i
      ({ g with oldcolor := oldcolor, currentcolor := currentcolor, first_touch := true },
       Call.drawButton (ButtonId.colorButton i) true ::
        (if oldcolor ≠ currentcolor then
          ((List.range 6).filter (fun j => j ≠ i)).map
            (fun j => Call.drawButton (ButtonId.colorButton j) false)
         else []))
    | none =>
      if g.clearButton.contains x y then
        (g, Call.fillScreen TFT_BLACK ::
          ((List.range 6).map (fun i => Call.drawButton (ButtonId.colorButton i) false) ++
           [Call.drawButton ButtonId.clearButton false,
            Call.drawButton ButtonId.calibrateButton false,
            Call.drawButton ButtonId.saveButton false,
            Call.drawButton ButtonId.loadButton false]))
      else if g.calibrateButton.contains x y then (g, [Call.touch_calibrate])
      else if g.saveButton.contains x y then (g, [Call.saveImage])
      else if g.loadButton.contains x y then ((drawUI W g).1, [Call.loadImage])
      else if y > BOXSIZE * 2 then
        if g.first_touch || decide (u32 ((current_time : Int) - (g.last_touch_time : Int)) > touch_delay) then
          ({ g with first_touch := false, last_x := x, last_y := y,
                    last_touch_time := current_time },
           [Call.fillCircle x y PENRADIUS g.currentcolor])
        else
          ({ g with last_x := x, last_y := y, last_touch_time := current_time },
           [Call.drawThickLine g.last_x g.last_y x y (g.currentcolor % 65536),
            Call.fillCircle x y PENRADIUS g.currentcolor])
      else (g, [])

/-- The globals when `setup` has returned on a display `W` pixels wide:
`touch_calibrate` leaves the globals alone and `drawUI` lays out the
buttons. -/
def afterSetup (W : Nat) : Globals := (drawUI W Globals.init).1

/-- The `fillCircle` calls behind a list of recorded calls: a
`drawThickLine` call is replaced by the circles it stamps. -/
def stamps (fuel : Nat) : List Call → Option (List Call)
  | [] => some []
  | Call.drawThickLine x0 y0 x1 y1 color :: rest =>
    match drawThickLine fuel x0 y0 x1 y1 color, stamps fuel rest with
    | some cs, some more => some (cs ++ more)
    | _, _ => none
  | Call.fillCircle x y r color :: rest => (stamps fuel rest).map (fun more => Call.fillCircle x y r color :: more)
  | _ :: rest => stamps fuel rest

/-! ## Flash file system and pixel grid -/

/-- The SPIFFS file system as the program sees it.  `mountOk` is the result
of `SPIFFS.begin(true)`; without a mount no file can be opened.
`openReadOk` and `openWriteOk` tell whether opening a file for reading (one
that exists) and for writing succeeds; `room` is the number of bytes a file
opened for writing accepts.  `cal` and `image` are the contents of
`/TouchCalData` and `/image.bin`, `none` when the file does not exist. -/
structure Flash where
  mountOk : Bool
  openReadOk : Bool
  openWriteOk : Bool
  room : Nat
  cal : Option (List Nat)
  image : Option (List Nat)
  deriving DecidableEq, Repr

/-- The effect of `file.write(buf, n)` on the bytes of a file opened for
writing: the bytes are appended as long as there is room. -/
def fileWrite (room : Nat) (content bytes : List Nat) : List Nat :=
  content ++ bytes.take (room - content.length)

/-- The pixel grid of the display: the colour at column `x`, row `y`. -/
abbrev Display := Nat → Nat → Nat

/-- The value `tft.readPixel(x, y)` stores into a `uint16_t`. -/
def readPixel (d : Display) (x y : Nat) : Nat := d x y % 65536

/-- The effect of `tft.drawPixel(x, y, color)` on the pixel grid. -/
def drawPixel (d : Display) (x y color : Nat) : Display :=
  fun px py => if px = x ∧ py = y then color else d px py

/-- The two bytes of a `uint16_t` in memory (the ESP32 is little endian). -/
def le16 (c : Nat) : List Nat := [c % 256, c / 256 % 256]

/-- The `uint16_t` held by two bytes of memory. -/
def fromLe16 (mem : List Nat) : Nat := mem.getD 0 0 + 256 * mem.getD 1 0

/-- A counting loop `for (int i = 0; i < n; i++) body`. -/
def forLoop {σ : Type} (n : Nat) (body : Nat → σ → σ) (s : σ) : σ :=
  (List.range n).foldl (fun acc i => body i acc) s

/-! ## `touch_calibrate` -/

/-- The function `touch_calibrate`.  The array `uint16_t calData[5]` holds
10 bytes, and `f.read((uint8_t *)calData, 14)` stores up to 14 bytes from
its start: a file of more than 10 bytes overruns the array into the bytes
behind it.  `behind` tells where the compiler has put the local
`calibrationNeeded`: `some k` when it is byte `10 + k` counted from the
start of `calData` (within reach of the read for `k < 4`), `none` when it is
out of reach.  `stack` is the content of the 14 bytes from the start of
`calData` on entry (the array is not initialised) and `fresh` is the content
`calibrateTouch` gives to the array, 10 bytes.  `f.write` of 14 bytes takes
the 10 bytes of the array and the 4 bytes behind it.  The result is the file
system afterwards and the calls made. -/
def touch_calibrate (behind : Option Nat) (stack fresh : List Nat) (fl : Flash) :
    Flash × List Call :=
  if !fl.mountOk then (fl, [Call.println "SPIFFS Mount Failed"])
  else
    let mem0 : List Nat :=
      match behind with
      | some k => stack.set (10 + k) 1
      | none => stack
    let r : List Nat × Bool × List Call :=
      match fl.cal with
      | none => (mem0, true, [])
      | some content =>
        if fl.openReadOk then
          let n := min 14 content.length
          let mem := content.take 14 ++ mem0.drop n
          let needed : Bool :=
            match behind with
            | some k => if 10 + k < n then decide (mem.getD (10 + k) 0 ≠ 0) else true
            | none => true
          if n = 14 then
            (mem, false,
             [Call.fsOpen CALIBRATION_FILE "r", Call.setTouch (mem.take 10),
              Call.println "Calibration data loaded from SPIFFS.",
              Call.fsClose CALIBRATION_FILE])
          else (mem, needed, [Call.fsOpen CALIBRATION_FILE "r", Call.fsClose CALIBRATION_FILE])
        else (mem0, true, [Call.fsOpen CALIBRATION_FILE "r"])
    let mem := r.1
    let calibrationNeeded := r.2.1
    if calibrationNeeded then
      let mem2 := fresh.take 10 ++ mem.drop 10
      let record := fileWrite fl.room [] (mem2.take 14)
      (if fl.openWriteOk then { fl with cal := some record } else fl,
       r.2.2 ++
       [Call.println "Calibration needed, starting calibration...",
        Call.fillScreen TFT_BLACK, Call.setCursor 20 0, Call.setTextFont 2, Call.setTextSize 1,
        Call.setTextColor TFT_WHITE TFT_BLACK, Call.calibrateTouch,
        Call.setTextColor TFT_GREEN TFT_BLACK, Call.fsOpen CALIBRATION_FILE "w"] ++
       (if fl.openWriteOk then
          [Call.fsWrite CALIBRATION_FILE (mem2.take 14), Call.fsClose CALIBRATION_FILE,
           Call.println "Calibration data saved to SPIFFS."]
        else []) ++
       [Call.fillScreen TFT_BLACK])
    else (fl, r.2.2)

/-! ## `saveImage` and `loadImage` -/

/-- The function `saveImage` on a display `W` wide and `H` high with pixel
grid `d`: the pixels are written row by row, two bytes each. -/
def saveImage (W H : Nat) (d : Display) (fl : Flash) : Flash × List Call :=
  if fl.mountOk && fl.openWriteOk then
    let bytes := forLoop H (fun y f =>
      forLoop W (fun x f => fileWrite fl.room f (le16 (readPixel d x y))) f) []
    ({ fl with image := some bytes },
     [Call.fsOpen IMAGE_FILE "w", Call.println "Saving image to SPIFFS...",
      Call.fsClose IMAGE_FILE, Call.println "Image saved!"])
  else (fl, [Call.fsOpen IMAGE_FILE "w", Call.println "Error opening file for writing."])

/-- The body of the inner loop of `loadImage` at pixel `(x, y)`: `rest` is
what is left of the file.  `file.read` returns the number of bytes it got,
at most 2, and the pixel is drawn when that number is positive.  `junk` is
the content of the variable `color` before the read (it has no initialiser);
a read of one byte replaces its low byte only. -/
def loadPixel (junk x y : Nat) (s : List Nat × Display) : List Nat × Display :=
  let n := min 2 s.1.length
  let color := fromLe16 (s.1.take 2 ++ (le16 junk).drop n)
  if n > 0 then (s.1.drop 2, drawPixel s.2 x y color) else (s.1.drop 2, s.2)

/-- The effect of the calls of `drawUI` on the pixel grid, given the effect
`paint` of one `drawButton` call of the display library. -/
def drawUI_paint (paint : TFT_eSPI_Button → Bool → Display → Display) (W : Nat) (d : Display) :
    Display :=
  let g := (drawUI W Globals.init).1
  let d1 := forLoop 6 (fun i acc => paint (g.colorButtons.getD i TFT_eSPI_Button.zero) false acc) d
  let d2 := paint g.clearButton false d1
  let d3 := paint g.calibrateButton false d2
  let d4 := paint g.saveButton false d3
  let d5 := paint g.loadButton false d4
  paint (g.colorButtons.getD 0 TFT_eSPI_Button.zero) true d5

/-- The pixel grid after the two nested loops of `loadImage` over a file
with content `bytes`. -/
def loadPixels (W H junk : Nat) (bytes : List Nat) (d : Display) : Display :=
  (forLoop H (fun y s => forLoop W (fun x s => loadPixel junk x y s) s) (bytes, d)).2

/-- The function `loadImage`.  `paint` is the effect of one `drawButton`
call of the display library on the pixel grid.  The result is the globals
(changed by `drawUI`), the pixel grid and the calls made. -/
def loadImage (paint : TFT_eSPI_Button → Bool → Display → Display) (W H junk : Nat)
    (g : Globals) (d : Display) (fl : Flash) : Globals × Display × List Call :=
  match (if fl.mountOk && fl.openReadOk then fl.image else none) with
  | some bytes =>
    ((drawUI W g).1, drawUI_paint paint W (loadPixels W H junk bytes d),
     [Call.fsOpen IMAGE_FILE "r", Call.println "Loading image from SPIFFS...",
      Call.fsClose IMAGE_FILE, Call.println "Image loaded!"] ++ (drawUI W g).2)
  | none =>
    ((drawUI W g).1, drawUI_paint paint W d,
     [Call.fsOpen IMAGE_FILE "r", Call.println "Error opening file for reading."] ++
      (drawUI W g).2)

/-- A `drawButton` that fills the bounding rectangle of the button with its
fill colour, or with its text colour when inverted. -/
def paintRect (b : TFT_eSPI_Button) (inverted : Bool) (d : Display) : Display :=
  fun px py => if b.contains px py then (if inverted then b.textcolor else b.fill) else d px py

/-- Whether pixel `(x, y)` lies in the bounding rectangle of one of the ten
buttons laid out by `drawUI` on a display `W` pixels wide. -/
def inButtonArea (W x y : Nat) : Bool :=
  let g := (drawUI W Globals.init).1
  g.colorButtons.any (fun b => b.contains x y) || g.clearButton.contains x y ||
  g.calibrateButton.contains x y || g.saveButton.contains x y || g.loadButton.contains x y

/-- Whether the sample `(x, y)` is inside none of the ten buttons. -/
def noButton (g : Globals) (x y : Nat) : Bool :=
  (colorHit g x y).isNone && !g.clearButton.contains x y && !g.calibrateButton.contains x y &&
  !g.saveButton.contains x y && !g.loadButton.contains x y

/-- Two lattice points that differ by at most 1 in each coordinate. -/
def adjacent (p q : Nat × Nat) : Prop :=
  |(q.1 : Int) - (p.1 : Int)| ≤ 1 ∧ |(q.2 : Int) - (p.2 : Int)| ≤ 1

/-- The globals after a list of runs of `loop`, each with its touch sample
and its clock value. -/
def runLoop (W : Nat) (ticks : List (Option (Nat × Nat) × Nat)) (g : Globals) : Globals :=
  ticks.foldl (fun acc t => (loop W t.1 t.2 acc).1) g

/-- Whether a recorded call is a call of `drawThickLine`. -/
def Call.isLine : Call → Bool
  | Call.drawThickLine _ _ _ _ _ => true
  | _ => false

/-- Whether a recorded call is a `fillCircle`. -/
def Call.isCircle : Call → Bool
  | Call.fillCircle _ _ _ _ => true
  | _ => false

/-- Whether a recorded call is a `setTouch`. -/
def Call.isSetTouch : Call → Bool
  | Call.setTouch _ => true
  | _ => false

/-- The `fillCircle` calls of `drawThickLine` at a list of centres. -/
def circlesAt (color : Nat) (pts : List (Nat × Nat)) : List Call :=
  pts.map (fun p => Call.fillCircle p.1 p.2 PENRADIUS color)

/-- A list of `n + 1` lattice points from `p` to `q` in which consecutive
points are adjacent. -/
def IsPath (pts : List (Nat × Nat)) (n : Nat) (p q : Nat × Nat) : Prop :=
  pts.length = n + 1 ∧ pts.head? = some p ∧ pts.getLast? = some q ∧ List.Chain' adjacent pts

/-- The colour `loadImage` draws for pixel number `i`, in row major order,
of a file with content `bytes`: the two bytes at offset `2 * i`, or the one
byte left there under the high byte of `junk`. -/
def pixelAt (junk : Nat) (bytes : List Nat) (i : Nat) : Nat :=
  fromLe16 ((bytes.drop (2 * i)).take 2 ++
    (le16 junk).drop (min 2 (bytes.drop (2 * i)).length))

/-- Loop invariant of `loadImage` when `m` pixels have been visited: the
file is `2 * m` bytes further, and the visited pixels for which the file had
a byte hold what was read. -/
def LoadInv (W junk : Nat) (bytes : List Nat) (d : Display) (m : Nat)
    (s : List Nat × Display) : Prop :=
  s.1 = bytes.drop (2 * m) ∧
  ∀ px py, s.2 px py =
    if px < W ∧ py * W + px < m ∧ 2 * (py * W + px) < bytes.length
    then pixelAt junk bytes (py * W + px) else d px py

/-- Loop invariant of `saveImage` when `m` pixels have been written: the file
holds `2 * m` bytes, the two bytes of each pixel at its row major offset. -/
def SaveInv (W : Nat) (d : Display) (m : Nat) (f : List Nat) : Prop :=
  f.length = 2 * m ∧
  ∀ px py, px < W → py * W + px < m →
    (f.drop (2 * (py * W + px))).take 2 = le16 (readPixel d px py)

/-- A file system that mounts, opens and has room for one canvas dump of the
320 by 240 display, with no file stored yet. -/
def flashEmpty : Flash :=
  { mountOk := true, openReadOk := true, openWriteOk := true, room := 153600,
    cal := none, image := none }

/-- A canvas pixel grid: black, except for the rectangle of colour button 0,
which is red as when that button is shown unpressed. -/
def clearedCanvas : Display :=
  fun x y => if (drawUI_colorButton 0).contains x y then TFT_RED else TFT_BLACK

/-- An all black canvas. -/
def blackCanvas : Display := fun _ _ => TFT_BLACK

/-- A file system whose canvas dump holds a single byte. -/
def flashOneByte : Flash :=
  { mountOk := true, openReadOk := true, openWriteOk := true, room := 153600,
    cal := none, image := some [52] }

/-- A file system with a complete, 14 byte calibration record. -/
def flashCalibrated : Flash :=
  { mountOk := true, openReadOk := true, openWriteOk := true, room := 153600,
    cal := some [1, 2, 3, 4, 5, 6, 7, 8, 9, 10, 11, 12, 13, 14], image := none }

/-- A file system with a calibration file cut short to 6 bytes. -/
def flashShortCal : Flash :=
  { mountOk := true, openReadOk := true, openWriteOk := true, room := 153600,
    cal := some [1, 2, 3, 4, 5, 6], image := none }

/-- A file system with a calibration file cut short to 12 bytes, the last
two of them zero. -/
def flashTwelveCal : Flash :=
  { mountOk := true, openReadOk := true, openWriteOk := true, room := 153600,
    cal := some [1, 2, 3, 4, 5, 6, 7, 8, 9, 10, 0, 0], image := none }

/-! ## Hit tests -/

theorem toInt16_small (n : Nat) (h : n < 32768) : toInt16 n = (n : Int) := by
  unfold toInt16
  have : n % 65536 = n := Nat.mod_eq_of_lt (by omega)
  rw [this]; simp [h]

theorem contains_iff (b : TFT_eSPI_Button) (x y : Nat) (hx : x < 32768) (hy : y < 32768) :
    b.contains x y = true ↔
      b.x1 ≤ (x : Int) ∧ (x : Int) < b.x1 + b.w ∧ b.y1 ≤ (y : Int) ∧ (y : Int) < b.y1 + b.h := by
  unfold TFT_eSPI_Button.contains
  rw [toInt16_small x hx, toInt16_small y hy]
  simp [and_assoc]

theorem colorButton_contains_iff (j x y : Nat) (hx : x < 32768) (hy : y < 32768) :
    (drawUI_colorButton j).contains x y = true ↔
      5 + 35 * j ≤ x ∧ x < 35 + 35 * j ∧ 5 ≤ y ∧ y < 35 := by
  rw [contains_iff _ _ _ hx hy]
  simp only [drawUI_colorButton, initButton, BOXSIZE]
  push_cast
  omega

theorem colorHit_layout (g : Globals) (i x y : Nat)
    (hlay : g.colorButtons = (List.range 6).map drawUI_colorButton)
    (hi : i < 6) (hx1 : 5 + 35 * i ≤ x) (hx2 : x < 35 + 35 * i) (hy1 : 5 ≤ y) (hy2 : y < 35) :
    colorHit g x y = some i := by
  have hx : x < 32768 := by omega
  have hy : y < 32768 := by omega
  have hc : ∀ j, j < 6 →
      ((g.colorButtons.getD j TFT_eSPI_Button.zero).contains x y = true ↔ j = i) := by
    intro j hj
    have : g.colorButtons.getD j TFT_eSPI_Button.zero = drawUI_colorButton j := by
      rw [hlay]; interval_cases j <;> rfl
    rw [this, colorButton_contains_iff j x y hx hy]
    omega
  unfold colorHit
  have hr : List.range 6 = [0, 1, 2, 3, 4, 5] := by decide
  rw [hr]
  have h0 := hc 0 (by omega)
  have h1 := hc 1 (by omega)
  have h2 := hc 2 (by omega)
  have h3 := hc 3 (by omega)
  have h4 := hc 4 (by omega)
  have h5 := hc 5 (by omega)
  interval_cases i <;> simp_all [List.find?]

/-! ## The stroke state machine of `loop` -/

theorem loop_color (W : Nat) (g : Globals) (x y t i : Nat) (h : colorHit g x y = some i) :
    loop W (some (x, y)) t g =
      ({ g with oldcolor := g.currentcolor, currentcolor := paletteColor i, first_touch := true },
       Call.drawButton (ButtonId.colorButton i) true ::
        (if g.currentcolor ≠ paletteColor i then
          ((List.range 6).filter (fun j => j ≠ i)).map
            (fun j => Call.drawButton (ButtonId.colorButton j) false)
         else [])) := by
  simp only [loop, h]

theorem loop_draw (W : Nat) (g : Globals) (x y t : Nat) (hnb : noButton g x y = true)
    (hy : y > BOXSIZE * 2) :
    loop W (some (x, y)) t g =
      if g.first_touch || decide (u32 ((t : Int) - (g.last_touch_time : Int)) > touch_delay) then
        ({ g with first_touch := false, last_x := x, last_y := y, last_touch_time := t },
         [Call.fillCircle x y PENRADIUS g.currentcolor])
      else
        ({ g with last_x := x, last_y := y, last_touch_time := t },
         [Call.drawThickLine g.last_x g.last_y x y (g.currentcolor % 65536),
          Call.fillCircle x y PENRADIUS g.currentcolor]) := by
  simp only [noButton, Bool.and_eq_true, Bool.not_eq_true', Option.isNone_iff_eq_none] at hnb
  obtain ⟨⟨⟨⟨h1, h2⟩, h3⟩, h4⟩, h5⟩ := hnb
  simp [loop, h1, h2, h3, h4, h5, hy]

theorem loop_first_touch_no_line (W : Nat) (g : Globals) (p : Nat × Nat) (t : Nat)
    (h : g.first_touch = true) : ∀ c ∈ (loop W (some p) t g).2, c.isLine = false := by
  obtain ⟨x, y⟩ := p
  unfold loop
  simp only
  split
  · intro c hc
    simp only [List.mem_cons] at hc
    rcases hc with rfl | hc
    · rfl
    · split at hc
      · simp only [List.mem_map] at hc
        obtain ⟨j, _, rfl⟩ := hc
        rfl
      · simp at hc
  · intro c hc
    split at hc
    · simp only [List.mem_cons, List.mem_append, List.mem_map, List.mem_singleton,
        List.not_mem_nil, or_false] at hc
      rcases hc with rfl | ⟨j, _, rfl⟩ | rfl | rfl | rfl | rfl <;> rfl
    · split at hc
      · simp only [List.mem_singleton] at hc; subst hc; rfl
      · split at hc
        · simp only [List.mem_singleton] at hc; subst hc; rfl
        · split at hc
          · simp only [List.mem_singleton] at hc; subst hc; rfl
          · split at hc
            · simp only [h, Bool.true_or, if_true, List.mem_singleton] at hc
              subst hc; rfl
            · simp at hc

theorem runLoop_release (W : Nat) (ts : List Nat) (g : Globals) (h : g.first_touch = true) :
    (runLoop W (ts.map (fun u => (none, u))) g).first_touch = true := by
  induction ts generalizing g with
  | nil => simpa [runLoop] using h
  | cons u us ih =>
    simp only [List.map_cons, runLoop, List.foldl_cons]
    exact ih _ rfl

/-- C4. Release resets continuity: after a pressed run of `loop`, one or
more runs without touch and then a pressed run, that last run makes no call
of `drawThickLine`, whatever the samples, the clock values and the globals
at the start. -/
theorem release_resets_continuity (W : Nat) (g : Globals) (p1 p2 : Nat × Nat)
    (t1 t t2 : Nat) (ts : List Nat) :
    ∀ c ∈ (loop W (some p2) t2
        (runLoop W ((some p1, t1) :: (none, t) :: ts.map (fun u => (none, u))) g)).2,
      c.isLine = false := by
  apply loop_first_touch_no_line
  simp only [runLoop, List.foldl_cons]
  exact runLoop_release W ts _ rfl

theorem release_resets_continuity_witness :
    (loop 320 (some (10, 60)) 50
        (runLoop 320 [(some (10, 10), 0), (none, 20)] (afterSetup 320))).2.all
      (fun c => !c.isLine) = true := by
  have h := release_resets_continuity 320 (afterSetup 320) (10, 10) (10, 60) 0 20 50 []
  simp only [List.all_eq_true, Bool.not_eq_true']
  exact h

theorem u32_elapsed (now last : Nat) :
    (u32 ((now : Int) - (last : Int)) > touch_delay) ↔
      200 < ((now : Int) - (last : Int)) % 2 ^ 32 := by
  unfold u32 touch_delay
  have : ((2 : Int) ^ 32) = 4294967296 := by norm_num
  rw [this]
  omega

theorem loop_continue (W : Nat) (g : Globals) (x y now : Nat)
    (hnb : noButton g x y = true) (hy : y > BOXSIZE * 2) (hact : g.first_touch = false)
    (hel : ((now : Int) - (g.last_touch_time : Int)) % 2 ^ 32 ≤ 200) :
    loop W (some (x, y)) now g =
      ({ g with last_x := x, last_y := y, last_touch_time := now },
       [Call.drawThickLine g.last_x g.last_y x y (g.currentcolor % 65536),
        Call.fillCircle x y PENRADIUS g.currentcolor]) := by
  rw [loop_draw W g x y now hnb hy]
  have hd : decide (u32 ((now : Int) - (g.last_touch_time : Int)) > touch_delay) = false :=
    decide_eq_false (fun h => absurd ((u32_elapsed now g.last_touch_time).mp h) (by omega))
  rw [hd, hact, Bool.or_false, if_neg (by simp)]

/-- C5. For a pressed sample inside no button, with `y > 2 * BOXSIZE`, while
the stroke is active (`first_touch == false`): `loop` calls `drawThickLine`
from `(last_x, last_y)` to the sample if and only if the elapsed time
`(current_time - last_touch_time) mod 2^32` is at most 200, and then stamps
the dot; beyond 200 it stamps the dot only.  In both cases the stored
position and time become those of the sample and the stroke stays active. -/
theorem stroke_continues_iff_within_delay (W : Nat) (g : Globals) (x y now : Nat)
    (hnb : noButton g x y = true) (hy : y > 2 * BOXSIZE) (hact : g.first_touch = false) :
    ((∃ c ∈ (loop W (some (x, y)) now g).2, c.isLine = true) ↔
      ((now : Int) - (g.last_touch_time : Int)) % 2 ^ 32 ≤ 200) ∧
    (((now : Int) - (g.last_touch_time : Int)) % 2 ^ 32 ≤ 200 →
      (loop W (some (x, y)) now g).2 =
        [Call.drawThickLine g.last_x g.last_y x y (g.currentcolor % 65536),
         Call.fillCircle x y PENRADIUS g.currentcolor]) ∧
    (200 < ((now : Int) - (g.last_touch_time : Int)) % 2 ^ 32 →
      (loop W (some (x, y)) now g).2 = [Call.fillCircle x y PENRADIUS g.currentcolor]) ∧
    (loop W (some (x, y)) now g).1 =
      { g with last_x := x, last_y := y, last_touch_time := now } := by
  have hy2 : y > BOXSIZE * 2 := by omega
  rw [loop_draw W g x y now hnb hy2]
  have hu := u32_elapsed now g.last_touch_time
  by_cases hlate : 200 < ((now : Int) - (g.last_touch_time : Int)) % 2 ^ 32
  · have hd : decide (u32 ((now : Int) - (g.last_touch_time : Int)) > touch_delay) = true :=
      decide_eq_true (hu.mpr hlate)
    rw [hd, Bool.or_true, if_pos rfl]
    refine ⟨⟨?_, fun h => absurd hlate (by omega)⟩, fun h => absurd hlate (by omega),
      fun _ => rfl, ?_⟩
    · rintro ⟨c, hc, hl⟩
      simp only [List.mem_singleton] at hc
      subst hc
      simp [Call.isLine] at hl
    · rw [← hact]
  · have hd : decide (u32 ((now : Int) - (g.last_touch_time : Int)) > touch_delay) = false :=
      decide_eq_false (fun h => hlate (hu.mp h))
    rw [hd, hact, Bool.or_false, if_neg (by simp)]
    exact ⟨⟨fun _ => by omega, fun _ => ⟨_, List.mem_cons_self _ _, rfl⟩⟩, fun _ => rfl,
      fun h => absurd h hlate, rfl⟩

theorem stroke_continues_iff_within_delay_witness :
    (loop 320 (some (120, 100)) 50
        { afterSetup 320 with first_touch := false, last_x := 100, last_y := 100,
                              last_touch_time := 4294967196 }).2 =
      [Call.drawThickLine 100 100 120 100 TFT_RED, Call.fillCircle 120 100 5 TFT_RED] ∧
    (loop 320 (some (120, 100)) 1200
        { afterSetup 320 with first_touch := false, last_x := 100, last_y := 100,
                              last_touch_time := 1000 }).2 =
      [Call.drawThickLine 100 100 120 100 TFT_RED, Call.fillCircle 120 100 5 TFT_RED] :=
  ⟨(stroke_continues_iff_within_delay 320
      { afterSetup 320 with first_touch := false, last_x := 100, last_y := 100,
                            last_touch_time := 4294967196 }
      120 100 50 (by decide) (by decide) rfl).2.1 (by decide),
   (stroke_continues_iff_within_delay 320
      { afterSetup 320 with first_touch := false, last_x := 100, last_y := 100,
                            last_touch_time := 1000 }
      120 100 1200 (by decide) (by decide) rfl).2.1 (by decide)⟩

/-- C6. Button precedence: with the colour buttons laid out by `drawUI`, a
pressed sample inside the 30 by 30 rectangle of colour button `i` (left
edge 5 + 35 i, top edge 5) sets `currentcolor` to palette entry `i` of red,
yellow, green, cyan, blue, magenta, and the run of `loop` stamps no circle
and makes no call of `drawThickLine`. -/
theorem color_button_precedence (W : Nat) (g : Globals) (i x y t : Nat)
    (hlay : g.colorButtons = (drawUI W Globals.init).1.colorButtons)
    (hi : i < 6) (hx1 : 5 + 35 * i ≤ x) (hx2 : x < 5 + 35 * i + 30)
    (hy1 : 5 ≤ y) (hy2 : y < 5 + 30) :
    (loop W (some (x, y)) t g).1.currentcolor = paletteColor i ∧
    [TFT_RED, TFT_YELLOW, TFT_GREEN, TFT_CYAN, TFT_BLUE, TFT_MAGENTA].get? i
      = some (paletteColor i) ∧
    (∀ c ∈ (loop W (some (x, y)) t g).2, c.isCircle = false ∧ c.isLine = false) := by
  have hhit : colorHit g x y = some i :=
    colorHit_layout g i x y hlay hi hx1 (by omega) hy1 (by omega)
  rw [loop_color W g x y t i hhit]
  refine ⟨rfl, ?_, ?_⟩
  · interval_cases i <;> rfl
  · intro c hc
    simp only [List.mem_cons] at hc
    rcases hc with rfl | hc
    · exact ⟨rfl, rfl⟩
    · split at hc
      · simp only [List.mem_map] at hc
        obtain ⟨j, _, rfl⟩ := hc
        exact ⟨rfl, rfl⟩
      · simp at hc

theorem color_button_precedence_witness :
    (loop 320 (some (90, 20)) 0 (afterSetup 320)).1.currentcolor = TFT_GREEN ∧
    (∀ c ∈ (loop 320 (some (90, 20)) 0 (afterSetup 320)).2,
      c.isCircle = false ∧ c.isLine = false) :=
  ⟨(color_button_precedence 320 (afterSetup 320) 2 90 20 0 rfl (by decide) (by decide)
      (by decide) (by decide) (by decide)).1,
   (color_button_precedence 320 (afterSetup 320) 2 90 20 0 rfl (by decide) (by decide)
      (by decide) (by decide) (by decide)).2.2⟩

/-- C1. On the failing input: after `setup` on a 320 pixel wide display, a
dot at (100, 100) at 1000 ms, then a sample on the Clear button at 1050 ms:
the stroke is still active (`first_touch == false`) after the Clear run, and
a sample at (200, 200) at 1100 ms makes `loop` call `drawThickLine` from the
position stored before the Clear. -/
theorem clear_keeps_stroke_active :
    (afterSetup 320).clearButton.contains 300 20 = true ∧
    (runLoop 320 [(some (100, 100), 1000), (some (300, 20), 1050)]
      (afterSetup 320)).first_touch = false ∧
    (loop 320 (some (200, 200)) 1100
      (runLoop 320 [(some (100, 100), 1000), (some (300, 20), 1050)] (afterSetup 320))).2 =
      [Call.drawThickLine 100 100 200 200 TFT_RED, Call.fillCircle 200 200 5 TFT_RED] := by
  decide

/-! ## Error term arithmetic of `drawThickLine` -/

theorem minor_le_of_inv (D d a b : Int) (hD : 0 < D) (hd : 0 ≤ d) (ha : a ≤ D)
    (h : (2 * b - 1) * D ≤ 2 * a * d) : b ≤ d := by
  by_contra hc
  have hb : d + 1 ≤ b := by omega
  have h1 : a * d ≤ D * d := mul_le_mul_of_nonneg_right ha hd
  have h2 : (2 * (d + 1) - 1) * D ≤ (2 * b - 1) * D :=
    mul_le_mul_of_nonneg_right (by omega) (le_of_lt hD)
  nlinarith

theorem minor_ge_of_inv (D d b : Int) (hD : 0 < D)
    (h : 2 * D * d ≤ (2 * b + 1) * D) : d ≤ b := by
  by_contra hc
  have hb : b + 1 ≤ d := by omega
  have h2 : (2 * b + 1) * D + D ≤ 2 * d * D := by
    have : (2 * b + 2) * D ≤ (2 * d) * D :=
      mul_le_mul_of_nonneg_right (by omega) (le_of_lt hD)
    nlinarith
  nlinarith

theorem no_tie (D a b : Int) (hD : 0 < D) (h : 2 * (a * D) = 2 * (b * D) + D) : False := by
  have h1 : (2 * a - 2 * b - 1) * D = 0 := by linear_combination h
  rcases mul_eq_zero.mp h1 with h2 | h2 <;> omega

theorem u16_id (z : Int) (h0 : 0 ≤ z) (h1 : z < 65536) : ((u16 z : Nat) : Int) = z := by
  unfold u16
  omega

/-! ## The loop of `drawThickLine` -/

theorem loop_done (color x1 y1 : Nat) (dx dy sx sy : Int) (fuel : Nat) (err : Int) :
    drawThickLineLoop color x1 y1 dx dy sx sy (fuel + 1) x1 y1 err =
      some (circlesAt color [(x1, y1)]) := by
  simp [drawThickLineLoop, circlesAt]

theorem loop_step (color x1 y1 : Nat) (dx dy sx sy : Int) (fuel x y : Nat) (err : Int)
    (h : ¬ (x = x1 ∧ y = y1)) :
    drawThickLineLoop color x1 y1 dx dy sx sy (fuel + 1) x y err =
      (drawThickLineLoop color x1 y1 dx dy sx sy fuel
        (if i32 (err * 2) > -dy then u16 ((x : Int) + sx) else x)
        (if i32 (err * 2) < dx then u16 ((y : Int) + sy) else y)
        (if i32 (err * 2) < dx then i32 ((if i32 (err * 2) > -dy then i32 (err - dy) else err) + dx)
          else (if i32 (err * 2) > -dy then i32 (err - dy) else err))).map
        (fun rest => Call.fillCircle x y PENRADIUS color :: rest) := by
  rw [drawThickLineLoop]
  rw [if_neg h]

theorem i32_id (z : Int) (h0 : -2147483648 ≤ z) (h1 : z < 2147483648) : i32 z = z := by
  unfold i32
  omega

theorem isPath_single (p : Nat × Nat) : IsPath [p] 0 p p := by
  refine ⟨rfl, rfl, rfl, ?_⟩
  exact List.chain'_singleton p

theorem isPath_cons (p p2 q : Nat × Nat) (pts : List (Nat × Nat)) (n : Nat)
    (h : IsPath pts n p2 q) (hadj : adjacent p p2) : IsPath (p :: pts) (n + 1) p q := by
  obtain ⟨hl, hh, hlast, hc⟩ := h
  cases pts with
  | nil => simp at hl
  | cons r rest =>
    simp only [List.head?_cons, Option.some.injEq] at hh
    subst hh
    refine ⟨by simp [hl], rfl, ?_, ?_⟩
    · rw [List.getLast?_cons_cons]; exact hlast
    · exact List.Chain'.cons hadj hc

theorem loop_xmajor (color x1 y1 : Nat) (dx dy sx sy : Int)
    (hdx : 0 < dx) (hdy : 0 ≤ dy) (hle : dy ≤ dx) (hdm : dx ≤ 65535)
    (hx1 : x1 < 65536) (hy1 : y1 < 65536)
    (hsx : sx = 1 ∨ sx = -1) (hsy : sy = 1 ∨ sy = -1) :
    ∀ (n fuel x y : Nat) (err a b P Q : Int),
      (n : Int) = dx - a → 0 ≤ a → 0 ≤ b → b ≤ dy → P = a * dy → Q = b * dx →
      x < 65536 → y < 65536 →
      (x1 : Int) = x + sx * (dx - a) → (y1 : Int) = y + sy * (dy - b) →
      err = Q + dx - P - dy → 2 * Q - dx ≤ 2 * P → 2 * P ≤ 2 * Q + dx → n < fuel →
      ∃ pts, drawThickLineLoop color x1 y1 dx dy sx sy fuel x y err
          = some (circlesAt color pts) ∧ IsPath pts n (x, y) (x1, y1) := by
  intro n
  induction n with
  | zero =>
    intro fuel x y err a b P Q hn ha hb hbd hP hQ hx hy hxa hyb herr hlo hhi hfuel
    have had : a = dx := by omega
    have hge : dy ≤ b := by
      apply minor_ge_of_inv dx dy b hdx
      subst had
      rw [hP, hQ] at hhi
      linarith [show 2 * a * dy = 2 * (a * dy) by ring,
        show (2 * b + 1) * a = 2 * (b * a) + a by ring]
    have hbe : b = dy := le_antisymm hbd hge
    have hxe : x = x1 := by
      rcases hsx with rfl | rfl <;> omega
    have hye : y = y1 := by
      rcases hsy with rfl | rfl <;> omega
    subst hxe hye
    obtain ⟨k, rfl⟩ : ∃ k, fuel = k + 1 := ⟨fuel - 1, by omega⟩
    exact ⟨[(x, y)], loop_done color x y dx dy sx sy k err, isPath_single (x, y)⟩
  | succ n ih =>
    intro fuel x y err a b P Q hn ha hb hbd hP hQ hx hy hxa hyb herr hlo hhi hfuel
    have had : a + 1 ≤ dx := by omega
    have hne : ¬ (x = x1 ∧ y = y1) := by
      rintro ⟨hxe, -⟩
      rcases hsx with rfl | rfl <;> omega
    obtain ⟨k, rfl⟩ : ∃ k, fuel = k + 1 := ⟨fuel - 1, by omega⟩
    rw [loop_step color x1 y1 dx dy sx sy k x y err hne]
    rw [i32_id (err * 2) (by omega) (by omega), i32_id (err - dy) (by omega) (by omega)]
    have hX : err * 2 > -dy := by
      by_contra hc
      have h1 : 2 * P = 2 * Q + dx := by omega
      have h2 : dy = dx := by omega
      rw [hP, hQ, h2] at h1
      exact no_tie dx a b hdx h1
    rw [if_pos hX, if_pos hX]
    have hxn0 : 0 ≤ (x : Int) + sx := by rcases hsx with rfl | rfl <;> omega
    have hxn1 : (x : Int) + sx < 65536 := by rcases hsx with rfl | rfl <;> omega
    have hxn := u16_id _ hxn0 hxn1
    have hPn : P + dy = (a + 1) * dy := by rw [hP]; ring
    by_cases hY : err * 2 < dx
    · rw [if_pos hY, if_pos hY, i32_id (err - dy + dx) (by omega) (by omega)]
      have hQn : Q + dx = (b + 1) * dx := by rw [hQ]; ring
      have hbn : b + 1 ≤ dy := by
        apply minor_le_of_inv dx dy (a + 1) (b + 1) hdx hdy had
        linarith [show (2 * (b + 1) - 1) * dx = 2 * ((b + 1) * dx) - dx by ring,
          show 2 * (a + 1) * dy = 2 * ((a + 1) * dy) by ring]
      have hyn0 : 0 ≤ (y : Int) + sy := by rcases hsy with rfl | rfl <;> omega
      have hyn1 : (y : Int) + sy < 65536 := by rcases hsy with rfl | rfl <;> omega
      have hyn := u16_id _ hyn0 hyn1
      obtain ⟨pts, hrun, hpath⟩ := ih k (u16 ((x : Int) + sx)) (u16 ((y : Int) + sy))
        (err - dy + dx) (a + 1) (b + 1) (P + dy) (Q + dx)
        (by omega) (by omega) (by omega) hbn hPn hQn (by omega) (by omega)
        (by rw [hxn]; rcases hsx with rfl | rfl <;> omega)
        (by rw [hyn]; rcases hsy with rfl | rfl <;> omega)
        (by omega) (by omega) (by omega) (by omega)
      refine ⟨(x, y) :: pts, ?_, ?_⟩
      · rw [hrun]; rfl
      · apply isPath_cons _ _ _ _ _ hpath
        constructor
        · show |((u16 ((x : Int) + sx) : Nat) : Int) - (x : Int)| ≤ 1
          rw [hxn, abs_le]; rcases hsx with rfl | rfl <;> omega
        · show |((u16 ((y : Int) + sy) : Nat) : Int) - (y : Int)| ≤ 1
          rw [hyn, abs_le]; rcases hsy with rfl | rfl <;> omega
    · rw [if_neg hY, if_neg hY]
      obtain ⟨pts, hrun, hpath⟩ := ih k (u16 ((x : Int) + sx)) y
        (err - dy) (a + 1) b (P + dy) Q
        (by omega) (by omega) (by omega) hbd hPn hQ (by omega) hy
        (by rw [hxn]; rcases hsx with rfl | rfl <;> omega)
        hyb
        (by omega) (by omega) (by omega) (by omega)
      refine ⟨(x, y) :: pts, ?_, ?_⟩
      · rw [hrun]; rfl
      · apply isPath_cons _ _ _ _ _ hpath
        constructor
        · show |((u16 ((x : Int) + sx) : Nat) : Int) - (x : Int)| ≤ 1
          rw [hxn, abs_le]; rcases hsx with rfl | rfl <;> omega
        · show |((y : Nat) : Int) - (y : Int)| ≤ 1
          simp

theorem loop_ymajor (color x1 y1 : Nat) (dx dy sx sy : Int)
    (hdx : 0 ≤ dx) (hlt : dx < dy) (hdm : dy ≤ 65535) (hx1 : x1 < 65536) (hy1 : y1 < 65536)
    (hsx : sx = 1 ∨ sx = -1) (hsy : sy = 1 ∨ sy = -1) :
    ∀ (n fuel x y : Nat) (err a b P Q : Int),
      (n : Int) = dy - b → 0 ≤ a → 0 ≤ b → a ≤ dx → P = a * dy → Q = b * dx →
      x < 65536 → y < 65536 →
      (x1 : Int) = x + sx * (dx - a) → (y1 : Int) = y + sy * (dy - b) →
      err = Q + dx - P - dy → 2 * P - dy ≤ 2 * Q → 2 * Q ≤ 2 * P + dy → n < fuel →
      ∃ pts, drawThickLineLoop color x1 y1 dx dy sx sy fuel x y err
          = some (circlesAt color pts) ∧ IsPath pts n (x, y) (x1, y1) := by
  have hdy : 0 < dy := by omega
  intro n
  induction n with
  | zero =>
    intro fuel x y err a b P Q hn ha hb had hP hQ hx hy hxa hyb herr hlo hhi hfuel
    have hbd : b = dy := by omega
    have hge : dx ≤ a := by
      apply minor_ge_of_inv dy dx a hdy
      subst hbd
      rw [hP, hQ] at hhi
      linarith [show 2 * b * dx = 2 * (b * dx) by ring,
        show (2 * a + 1) * b = 2 * (a * b) + b by ring]
    have hae : a = dx := le_antisymm had hge
    have hxe : x = x1 := by
      rcases hsx with rfl | rfl <;> omega
    have hye : y = y1 := by
      rcases hsy with rfl | rfl <;> omega
    subst hxe hye
    obtain ⟨k, rfl⟩ : ∃ k, fuel = k + 1 := ⟨fuel - 1, by omega⟩
    exact ⟨[(x, y)], loop_done color x y dx dy sx sy k err, isPath_single (x, y)⟩
  | succ n ih =>
    intro fuel x y err a b P Q hn ha hb had hP hQ hx hy hxa hyb herr hlo hhi hfuel
    have hbd : b + 1 ≤ dy := by omega
    have hne : ¬ (x = x1 ∧ y = y1) := by
      rintro ⟨-, hye⟩
      rcases hsy with rfl | rfl <;> omega
    obtain ⟨k, rfl⟩ : ∃ k, fuel = k + 1 := ⟨fuel - 1, by omega⟩
    rw [loop_step color x1 y1 dx dy sx sy k x y err hne]
    rw [i32_id (err * 2) (by omega) (by omega)]
    have hY : err * 2 < dx := by omega
    rw [if_pos hY, if_pos hY]
    have hyn0 : 0 ≤ (y : Int) + sy := by rcases hsy with rfl | rfl <;> omega
    have hyn1 : (y : Int) + sy < 65536 := by rcases hsy with rfl | rfl <;> omega
    have hyn := u16_id _ hyn0 hyn1
    have hQn : Q + dx = (b + 1) * dx := by rw [hQ]; ring
    by_cases hX : err * 2 > -dy
    · rw [if_pos hX, if_pos hX, i32_id (err - dy) (by omega) (by omega),
        i32_id (err - dy + dx) (by omega) (by omega)]
      have hPn : P + dy = (a + 1) * dy := by rw [hP]; ring
      have han : a + 1 ≤ dx := by
        apply minor_le_of_inv dy dx (b + 1) (a + 1) hdy hdx hbd
        linarith [show (2 * (a + 1) - 1) * dy = 2 * ((a + 1) * dy) - dy by ring,
          show 2 * (b + 1) * dx = 2 * ((b + 1) * dx) by ring]
      have hxn0 : 0 ≤ (x : Int) + sx := by rcases hsx with rfl | rfl <;> omega
      have hxn1 : (x : Int) + sx < 65536 := by rcases hsx with rfl | rfl <;> omega
      have hxn := u16_id _ hxn0 hxn1
      obtain ⟨pts, hrun, hpath⟩ := ih k (u16 ((x : Int) + sx)) (u16 ((y : Int) + sy))
        (err - dy + dx) (a + 1) (b + 1) (P + dy) (Q + dx)
        (by omega) (by omega) (by omega) han hPn hQn (by omega) (by omega)
        (by rw [hxn]; rcases hsx with rfl | rfl <;> omega)
        (by rw [hyn]; rcases hsy with rfl | rfl <;> omega)
        (by omega) (by omega) (by omega) (by omega)
      refine ⟨(x, y) :: pts, ?_, ?_⟩
      · rw [hrun]; rfl
      · apply isPath_cons _ _ _ _ _ hpath
        constructor
        · show |((u16 ((x : Int) + sx) : Nat) : Int) - (x : Int)| ≤ 1
          rw [hxn, abs_le]; rcases hsx with rfl | rfl <;> omega
        · show |((u16 ((y : Int) + sy) : Nat) : Int) - (y : Int)| ≤ 1
          rw [hyn, abs_le]; rcases hsy with rfl | rfl <;> omega
    · rw [if_neg hX, if_neg hX, i32_id (err + dx) (by omega) (by omega)]
      obtain ⟨pts, hrun, hpath⟩ := ih k x (u16 ((y : Int) + sy))
        (err + dx) a (b + 1) P (Q + dx)
        (by omega) (by omega) (by omega) had hP hQn hx (by omega)
        hxa
        (by rw [hyn]; rcases hsy with rfl | rfl <;> omega)
        (by omega) (by omega) (by omega) (by omega)
      refine ⟨(x, y) :: pts, ?_, ?_⟩
      · rw [hrun]; rfl
      · apply isPath_cons _ _ _ _ _ hpath
        constructor
        · show |((x : Nat) : Int) - (x : Int)| ≤ 1
          simp
        · show |((u16 ((y : Int) + sy) : Nat) : Int) - (y : Int)| ≤ 1
          rw [hyn, abs_le]; rcases hsy with rfl | rfl <;> omega

theorem loop_fuel_succ (color x1 y1 : Nat) (dx dy sx sy : Int) :
    ∀ (fuel x y : Nat) (err : Int) (r : List Call),
      drawThickLineLoop color x1 y1 dx dy sx sy fuel x y err = some r →
      drawThickLineLoop color x1 y1 dx dy sx sy (fuel + 1) x y err = some r := by
  intro fuel
  induction fuel with
  | zero => intro x y err r h; simp [drawThickLineLoop] at h
  | succ k ih =>
    intro x y err r h
    by_cases hd : x = x1 ∧ y = y1
    · obtain ⟨rfl, rfl⟩ := hd
      rw [loop_done] at h ⊢
      exact h
    · rw [loop_step _ _ _ _ _ _ _ _ _ _ _ hd] at h ⊢
      rw [Option.map_eq_some'] at h ⊢
      obtain ⟨rest, hrest, hr⟩ := h
      exact ⟨rest, ih _ _ _ _ hrest, hr⟩

theorem loop_fuel_mono (color x1 y1 : Nat) (dx dy sx sy : Int) (fuel x y : Nat) (err : Int)
    (r : List Call) (h : drawThickLineLoop color x1 y1 dx dy sx sy fuel x y err = some r)
    (fuel2 : Nat) (hf : fuel ≤ fuel2) :
    drawThickLineLoop color x1 y1 dx dy sx sy fuel2 x y err = some r := by
  induction fuel2 with
  | zero =>
    have : fuel = 0 := by omega
    subst this; exact h
  | succ k ih =>
    by_cases hk : fuel ≤ k
    · exact loop_fuel_succ _ _ _ _ _ _ _ _ _ _ _ _ (ih hk)
    · have : fuel = k + 1 := by omega
      subst this; exact h

theorem drawThickLine_isPath (x0 y0 x1 y1 color : Nat)
    (hx0 : x0 < 65536) (hy0 : y0 < 65536) (hx1 : x1 < 65536) (hy1 : y1 < 65536) :
    ∃ pts, drawThickLine
        (max ((x1 : Int) - x0).natAbs ((y1 : Int) - y0).natAbs + 1) x0 y0 x1 y1 color
          = some (circlesAt color pts) ∧
      IsPath pts (max ((x1 : Int) - x0).natAbs ((y1 : Int) - y0).natAbs) (x0, y0) (x1, y1) := by
  unfold drawThickLine
  simp only
  have hsx : (if x0 < x1 then (1 : Int) else -1) = 1 ∨ (if x0 < x1 then (1 : Int) else -1) = -1 := by
    split <;> simp
  have hsy : (if y0 < y1 then (1 : Int) else -1) = 1 ∨ (if y0 < y1 then (1 : Int) else -1) = -1 := by
    split <;> simp
  have hdx0 : (0 : Int) ≤ |(x1 : Int) - x0| := abs_nonneg _
  have hdy0 : (0 : Int) ≤ |(y1 : Int) - y0| := abs_nonneg _
  have hxe : (x1 : Int) = x0 + (if x0 < x1 then (1 : Int) else -1) * (|(x1 : Int) - x0| - 0) := by
    split
    · rw [abs_of_nonneg (by omega)]; omega
    · rw [abs_of_nonpos (by omega)]; omega
  have hye : (y1 : Int) = y0 + (if y0 < y1 then (1 : Int) else -1) * (|(y1 : Int) - y0| - 0) := by
    split
    · rw [abs_of_nonneg (by omega)]; omega
    · rw [abs_of_nonpos (by omega)]; omega
  have hax : ((((x1 : Int) - x0).natAbs : Nat) : Int) = |(x1 : Int) - x0| := Int.natCast_natAbs _
  have hay : ((((y1 : Int) - y0).natAbs : Nat) : Int) = |(y1 : Int) - y0| := Int.natCast_natAbs _
  have hdxm : |(x1 : Int) - x0| ≤ 65535 := by rw [abs_le]; omega
  have hdym : |(y1 : Int) - y0| ≤ 65535 := by rw [abs_le]; omega
  by_cases hmaj : |(y1 : Int) - y0| ≤ |(x1 : Int) - x0|
  · have hmax : max ((x1 : Int) - x0).natAbs ((y1 : Int) - y0).natAbs
        = ((x1 : Int) - x0).natAbs := by
      apply max_eq_left; omega
    rw [hmax]
    by_cases hz : |(x1 : Int) - x0| = 0
    · have hx : x0 = x1 := by
        have := abs_eq_zero.mp hz
        omega
      have hy : y0 = y1 := by
        have h2 : |(y1 : Int) - y0| = 0 := by omega
        have := abs_eq_zero.mp h2
        omega
      subst hx hy
      refine ⟨[(x0, y0)], ?_, ?_⟩
      · simp [loop_done]
      · simpa using isPath_single (x0, y0)
    · exact loop_xmajor color x1 y1 _ _ _ _ (by omega) hdy0 hmaj hdxm hx1 hy1 hsx hsy
        _ _ x0 y0 _ 0 0 0 0 (by omega) (by omega) (by omega) hdy0 (by ring) (by ring) hx0 hy0
        hxe hye (by ring) (by omega) (by omega) (by omega)
  · have hmax : max ((x1 : Int) - x0).natAbs ((y1 : Int) - y0).natAbs
        = ((y1 : Int) - y0).natAbs := by
      apply max_eq_right; omega
    rw [hmax]
    exact loop_ymajor color x1 y1 _ _ _ _ hdx0 (by omega) hdym hx1 hy1 hsx hsy
      _ _ x0 y0 _ 0 0 0 0 (by omega) (by omega) (by omega) hdx0 (by ring) (by ring) hx0 hy0
      hxe hye (by ring) (by omega) (by omega) (by omega)

/-- C3. For `uint16_t` inputs `drawThickLine` terminates: with any fuel
above `max(|x1 - x0|, |y1 - y0|)` it returns, and the centres of the circles
it stamps are a list of exactly `max(|x1 - x0|, |y1 - y0|) + 1` lattice
points that starts at `(x0, y0)`, ends at `(x1, y1)` and moves by at most 1
in `x` and at most 1 in `y` between neighbours; when the two end points
coincide, exactly one circle is stamped. -/
theorem drawThickLine_gap_free (x0 y0 x1 y1 color : Nat)
    (hx0 : x0 < 65536) (hy0 : y0 < 65536) (hx1 : x1 < 65536) (hy1 : y1 < 65536) :
    ∃ pts : List (Nat × Nat),
      (∀ fuel, max ((x1 : Int) - x0).natAbs ((y1 : Int) - y0).natAbs < fuel →
        drawThickLine fuel x0 y0 x1 y1 color = some (circlesAt color pts)) ∧
      pts.length = max ((x1 : Int) - x0).natAbs ((y1 : Int) - y0).natAbs + 1 ∧
      pts.head? = some (x0, y0) ∧ pts.getLast? = some (x1, y1) ∧
      List.Chain' adjacent pts ∧
      (x0 = x1 ∧ y0 = y1 → pts = [(x0, y0)]) := by
  obtain ⟨pts, hrun, hlen, hhead, hlast, hchain⟩ :=
    drawThickLine_isPath x0 y0 x1 y1 color hx0 hy0 hx1 hy1
  refine ⟨pts, ?_, hlen, hhead, hlast, hchain, ?_⟩
  · intro fuel hfuel
    exact loop_fuel_mono _ _ _ _ _ _ _ _ _ _ _ _ hrun fuel (by omega)
  · rintro ⟨rfl, rfl⟩
    simp only [sub_self, Int.natAbs_zero, max_self, zero_add] at hlen
    match pts, hlen, hhead with
    | [p], _, hh => simpa using hh

theorem drawThickLine_gap_free_witness :
    ∃ pts : List (Nat × Nat),
      (∀ fuel, max ((13 : Int) - (10 : Nat)).natAbs (((75 : Nat) : Int) - (70 : Nat)).natAbs < fuel →
        drawThickLine fuel 10 70 13 75 TFT_RED = some (circlesAt TFT_RED pts)) ∧
      pts.length = max ((13 : Int) - (10 : Nat)).natAbs (((75 : Nat) : Int) - (70 : Nat)).natAbs + 1 ∧
      pts.head? = some (10, 70) ∧ pts.getLast? = some (13, 75) ∧
      List.Chain' adjacent pts ∧
      ((10 : Nat) = 13 ∧ (70 : Nat) = 75 → pts = [(10, 70)]) :=
  drawThickLine_gap_free 10 70 13 75 TFT_RED (by decide) (by decide) (by decide) (by decide)

/-! ## Strokes -/

theorem loop_horizontal (color x1 y dx : Nat) (sy : Int) (hdx : dx ≤ 65535) (hx1 : x1 < 65536) :
    ∀ (n fuel x : Nat), x + n = x1 → 0 < dx → n < fuel →
      ∃ cs, drawThickLineLoop color x1 y (dx : Int) 0 1 sy fuel x y (dx : Int) = some cs ∧
        ∀ k, k ≤ n → Call.fillCircle (x + k) y PENRADIUS color ∈ cs := by
  intro n
  induction n with
  | zero =>
    intro fuel x hx _ hfuel
    obtain ⟨f, rfl⟩ : ∃ f, fuel = f + 1 := ⟨fuel - 1, by omega⟩
    have : x = x1 := by omega
    subst this
    refine ⟨_, loop_done color x y _ _ _ _ f _, ?_⟩
    intro k hk
    have : k = 0 := by omega
    subst this
    simp [circlesAt]
  | succ n ih =>
    intro fuel x hx hpos hfuel
    obtain ⟨f, rfl⟩ : ∃ f, fuel = f + 1 := ⟨fuel - 1, by omega⟩
    have hne : ¬ (x = x1 ∧ y = y) := by
      rintro ⟨hxe, -⟩; omega
    rw [loop_step color x1 y _ _ _ _ f x y _ hne]
    rw [i32_id ((dx : Int) * 2) (by omega) (by omega), i32_id ((dx : Int) - 0) (by omega) (by omega)]
    have hX : ((dx : Int) * 2 > -0) := by omega
    have hY : ¬ ((dx : Int) * 2 < (dx : Int)) := by omega
    rw [if_pos hX, if_pos hX, if_neg hY, if_neg hY]
    have hxn : u16 ((x : Int) + 1) = x + 1 := by unfold u16; omega
    rw [hxn, sub_zero]
    obtain ⟨cs, hrun, hcs⟩ := ih f (x + 1) (by omega) hpos (by omega)
    refine ⟨_, by rw [hrun]; rfl, ?_⟩
    intro k hk
    rcases Nat.eq_zero_or_pos k with rfl | hkpos
    · simp
    · have := hcs (k - 1) (by omega)
      have he : x + 1 + (k - 1) = x + k := by omega
      rw [he] at this
      exact List.mem_cons_of_mem _ this

theorem drawThickLine_horizontal (fuel xa xb y color : Nat) (hle : xa ≤ xb) (hxb : xb < 65536)
    (hfuel : xb - xa < fuel) :
    ∃ cs, drawThickLine fuel xa y xb y color = some cs ∧
      ∀ x, xa ≤ x → x ≤ xb → Call.fillCircle x y PENRADIUS color ∈ cs := by
  unfold drawThickLine
  simp only [sub_self, abs_zero]
  rcases Nat.eq_or_lt_of_le hle with rfl | hlt
  · obtain ⟨f, rfl⟩ : ∃ f, fuel = f + 1 := ⟨fuel - 1, by omega⟩
    refine ⟨_, loop_done color xa y _ _ _ _ f _, ?_⟩
    intro x h1 h2
    have : x = xa := by omega
    subst this
    simp [circlesAt]
  · have hdx : |(xb : Int) - (xa : Int)| = ((xb - xa : Nat) : Int) := by
      rw [abs_of_nonneg (by omega)]; omega
    rw [hdx, if_pos hlt, sub_zero]
    obtain ⟨cs, hrun, hcs⟩ := loop_horizontal color xb y (xb - xa) (if y < y then 1 else -1)
      (by omega) hxb (xb - xa) fuel xa (by omega) (by omega) hfuel
    refine ⟨cs, hrun, ?_⟩
    intro x h1 h2
    have := hcs (x - xa) (by omega)
    have he : xa + (x - xa) = x := by omega
    rw [he] at this
    exact this

theorem loop_above_canvas_no_stamp (W : Nat) (g : Globals) (x y t : Nat)
    (hy : y ≤ 2 * BOXSIZE) :
    ∀ c ∈ (loop W (some (x, y)) t g).2, c.isCircle = false ∧ c.isLine = false := by
  have hny : ¬ (y > BOXSIZE * 2) := by omega
  unfold loop
  simp only
  split
  · intro c hc
    simp only [List.mem_cons] at hc
    rcases hc with rfl | hc
    · exact ⟨rfl, rfl⟩
    · split at hc
      · simp only [List.mem_map] at hc
        obtain ⟨j, _, rfl⟩ := hc
        exact ⟨rfl, rfl⟩
      · simp at hc
  · intro c hc
    split at hc
    · simp only [List.mem_cons, List.mem_append, List.mem_map, List.mem_singleton,
        List.not_mem_nil, or_false] at hc
      rcases hc with rfl | ⟨j, _, rfl⟩ | rfl | rfl | rfl | rfl <;> exact ⟨rfl, rfl⟩
    · split at hc
      · simp only [List.mem_singleton] at hc; subst hc; exact ⟨rfl, rfl⟩
      · split at hc
        · simp only [List.mem_singleton] at hc; subst hc; exact ⟨rfl, rfl⟩
        · split at hc
          · simp only [List.mem_singleton] at hc; subst hc; exact ⟨rfl, rfl⟩
          · simp [hny] at hc

/-- C2, the claim as stated fails: after `setup` on the 320 pixel wide
display the stroke is inactive, and the two pressed samples (10, 50) at 0 ms
and (20, 50) at 50 ms make no call at all, because `y = 50` is not above
`2 * BOXSIZE = 60`: no circle is stamped. -/
theorem samples_at_row_50_draw_nothing :
    (afterSetup 320).first_touch = true ∧
    (loop 320 (some (10, 50)) 0 (afterSetup 320)).2 = [] ∧
    (loop 320 (some (20, 50)) 50 (loop 320 (some (10, 50)) 0 (afterSetup 320)).1).2 = [] ∧
    stamps 100 ((loop 320 (some (10, 50)) 0 (afterSetup 320)).2 ++
      (loop 320 (some (20, 50)) 50 (loop 320 (some (10, 50)) 0 (afterSetup 320)).1).2) =
        some [] := by
  decide

/-- C2, amended.  Two consecutive pressed samples `(xa, ya)` and `(xb, yb)`,
both inside no button and both with `y > 2 * BOXSIZE`, the second within
200 ms of the first: the second run of `loop` calls `drawThickLine` from the
first position to the second and stamps the dot.  When the two samples are
on one row, `xa ≤ xb`, the circles stamped by that run include one of radius
`PENRADIUS` in the current colour at every lattice point `(x, ya)` with
`xa ≤ x ≤ xb`.  A pressed sample with `y ≤ 2 * BOXSIZE`, whatever the
globals, the clock and `x`, stamps no circle and makes no call of
`drawThickLine`. -/
theorem stroke_continuity (W : Nat) (g : Globals) (xa ya xb yb ta tb : Nat)
    (hna : noButton g xa ya = true) (hnb : noButton g xb yb = true)
    (hya : ya > 2 * BOXSIZE) (hyb : yb > 2 * BOXSIZE)
    (hel : ((tb : Int) - (ta : Int)) % 2 ^ 32 ≤ 200) :
    (loop W (some (xb, yb)) tb (loop W (some (xa, ya)) ta g).1).2 =
      [Call.drawThickLine xa ya xb yb (g.currentcolor % 65536),
       Call.fillCircle xb yb PENRADIUS g.currentcolor] ∧
    (ya = yb → xa ≤ xb → xb < 65536 → ∀ fuel, xb - xa < fuel →
      ∃ cs, stamps fuel (loop W (some (xb, yb)) tb (loop W (some (xa, ya)) ta g).1).2 = some cs ∧
        ∀ x, xa ≤ x → x ≤ xb → Call.fillCircle x ya PENRADIUS (g.currentcolor % 65536) ∈ cs) ∧
    (∀ (h : Globals) (x y t : Nat), y ≤ 2 * BOXSIZE →
      ∀ c ∈ (loop W (some (x, y)) t h).2, c.isCircle = false ∧ c.isLine = false) := by
  have h1 : (loop W (some (xa, ya)) ta g).1 =
      { g with first_touch := false, last_x := xa, last_y := ya, last_touch_time := ta } := by
    rw [loop_draw W g xa ya ta hna (by omega)]
    split
    · rfl
    · rename_i hc
      have hf : g.first_touch = false := by
        cases hft : g.first_touch
        · rfl
        · rw [hft] at hc; simp at hc
      show { g with last_x := xa, last_y := ya, last_touch_time := ta } = _
      rw [← hf]
  have hcalls : (loop W (some (xb, yb)) tb (loop W (some (xa, ya)) ta g).1).2 =
      [Call.drawThickLine xa ya xb yb (g.currentcolor % 65536),
       Call.fillCircle xb yb PENRADIUS g.currentcolor] := by
    rw [h1, loop_continue W
      { g with first_touch := false, last_x := xa, last_y := ya, last_touch_time := ta }
      xb yb tb hnb (by omega) rfl hel]
  refine ⟨hcalls, ?_, fun h x y t hy => loop_above_canvas_no_stamp W h x y t hy⟩
  intro hy hle hxb fuel hfuel
  subst hy
  rw [hcalls]
  obtain ⟨cs, hrun, hcs⟩ :=
    drawThickLine_horizontal fuel xa xb ya (g.currentcolor % 65536) hle hxb hfuel
  refine ⟨cs ++ [Call.fillCircle xb ya PENRADIUS g.currentcolor], ?_, ?_⟩
  · simp [stamps, hrun]
  · intro x hx1 hx2
    exact List.mem_append_left _ (hcs x hx1 hx2)

theorem stroke_continuity_witness :
    (loop 320 (some (20, 70)) 50 (loop 320 (some (10, 70)) 0 (afterSetup 320)).1).2 =
      [Call.drawThickLine 10 70 20 70 TFT_RED, Call.fillCircle 20 70 5 TFT_RED] ∧
    (∃ cs, stamps 11 (loop 320 (some (20, 70)) 50
        (loop 320 (some (10, 70)) 0 (afterSetup 320)).1).2 = some cs ∧
      ∀ x, 10 ≤ x → x ≤ 20 → Call.fillCircle x 70 5 TFT_RED ∈ cs) ∧
    (∀ c ∈ (loop 320 (some (100, 60)) 50 (loop 320 (some (10, 70)) 0 (afterSetup 320)).1).2,
      c.isCircle = false ∧ c.isLine = false) :=
  ⟨(stroke_continuity 320 (afterSetup 320) 10 70 20 70 0 50 (by decide) (by decide) (by decide)
      (by decide) (by decide)).1,
   (stroke_continuity 320 (afterSetup 320) 10 70 20 70 0 50 (by decide) (by decide) (by decide)
      (by decide) (by decide)).2.1 rfl (by decide) (by decide) 11 (by decide),
   (stroke_continuity 320 (afterSetup 320) 10 70 20 70 0 50 (by decide) (by decide) (by decide)
      (by decide) (by decide)).2.2 (loop 320 (some (10, 70)) 0 (afterSetup 320)).1 100 60 50
      (by decide)⟩

/-! ## Counting loops and pixel indices -/

theorem forLoop_zero {σ : Type} (body : Nat → σ → σ) (s : σ) : forLoop 0 body s = s := rfl

theorem forLoop_succ {σ : Type} (n : Nat) (body : Nat → σ → σ) (s : σ) :
    forLoop (n + 1) body s = body n (forLoop n body s) := by
  simp [forLoop, List.range_succ, List.foldl_append]

theorem forLoop_inv {σ : Type} (P : Nat → σ → Prop) (n : Nat) (body : Nat → σ → σ) (s : σ)
    (h0 : P 0 s) (hstep : ∀ i t, i < n → P i t → P (i + 1) (body i t)) :
    P n (forLoop n body s) := by
  induction n with
  | zero => exact h0
  | succ k ih =>
    rw [forLoop_succ]
    exact hstep k _ (Nat.lt_succ_self k) (ih (fun i t hi => hstep i t (Nat.lt_succ_of_lt hi)))

theorem idx_unique (W px py k y : Nat) (hpx : px < W) (hk : k < W)
    (h : py * W + px = y * W + k) : px = k ∧ py = y := by
  have h1 : (py * W + px) % W = px := by
    rw [Nat.mul_add_mod_of_lt hpx]
  have h2 : (y * W + k) % W = k := by
    rw [Nat.mul_add_mod_of_lt hk]
  have hpk : px = k := by rw [← h1, ← h2, h]
  subst hpk
  have hW : 0 < W := by omega
  have : py * W = y * W := by omega
  exact ⟨rfl, Nat.eq_of_mul_eq_mul_right hW this⟩

theorem idx_lt (W H px py : Nat) (hpx : px < W) : py * W + px < H * W ↔ py < H := by
  constructor
  · intro h
    by_contra hc
    have : H * W ≤ py * W := Nat.mul_le_mul_right W (by omega)
    omega
  · intro h
    have : (py + 1) * W ≤ H * W := Nat.mul_le_mul_right W h
    rw [Nat.add_mul, Nat.one_mul] at this
    omega

/-! ## The pixel loops of `saveImage` and `loadImage` -/

theorem loadPixel_step (W junk : Nat) (bytes : List Nat) (d : Display) (y k : Nat) (hk : k < W)
    (s : List Nat × Display) (hinv : LoadInv W junk bytes d (y * W + k) s) :
    LoadInv W junk bytes d (y * W + k + 1) (loadPixel junk k y s) := by
  obtain ⟨rest, disp⟩ := s
  obtain ⟨hrest, hdisp⟩ := hinv
  simp only at hrest hdisp
  have hdrop : rest.drop 2 = bytes.drop (2 * (y * W + k + 1)) := by
    rw [hrest, List.drop_drop]
    congr 1
  have hlen : rest.length = bytes.length - 2 * (y * W + k) := by
    rw [hrest, List.length_drop]
  have hsame : ∀ px py, ¬ (px = k ∧ py = y) →
      ((px < W ∧ py * W + px < y * W + k + 1 ∧ 2 * (py * W + px) < bytes.length) ↔
       (px < W ∧ py * W + px < y * W + k ∧ 2 * (py * W + px) < bytes.length)) := by
    intro px py hne
    constructor
    · rintro ⟨h1, h2, h3⟩
      refine ⟨h1, ?_, h3⟩
      by_contra hc
      have : py * W + px = y * W + k := by omega
      exact hne (idx_unique W px py k y h1 hk this)
    · rintro ⟨h1, h2, h3⟩
      exact ⟨h1, by omega, h3⟩
  unfold loadPixel
  simp only
  by_cases hn : min 2 rest.length > 0
  · rw [if_pos hn]
    refine ⟨hdrop, ?_⟩
    intro px py
    simp only [drawPixel]
    by_cases hp : px = k ∧ py = y
    · obtain ⟨rfl, rfl⟩ := hp
      have hc : px < W ∧ py * W + px < py * W + px + 1 ∧ 2 * (py * W + px) < bytes.length :=
        ⟨hk, by omega, by omega⟩
      rw [if_pos ⟨rfl, rfl⟩, if_pos hc]
      unfold pixelAt
      rw [← hrest]
    · rw [if_neg hp, hdisp px py]
      by_cases hc : px < W ∧ py * W + px < y * W + k ∧ 2 * (py * W + px) < bytes.length
      · rw [if_pos hc, if_pos ((hsame px py hp).mpr hc)]
      · rw [if_neg hc, if_neg (fun h => hc ((hsame px py hp).mp h))]
  · rw [if_neg hn]
    refine ⟨hdrop, ?_⟩
    intro px py
    simp only
    rw [hdisp px py]
    by_cases hp : px = k ∧ py = y
    · obtain ⟨rfl, rfl⟩ := hp
      have hc1 : ¬ (px < W ∧ py * W + px < py * W + px ∧ 2 * (py * W + px) < bytes.length) := by
        omega
      have hc2 : ¬ (px < W ∧ py * W + px < py * W + px + 1 ∧
          2 * (py * W + px) < bytes.length) := by
        omega
      rw [if_neg hc1, if_neg hc2]
    · by_cases hc : px < W ∧ py * W + px < y * W + k ∧ 2 * (py * W + px) < bytes.length
      · rw [if_pos hc, if_pos ((hsame px py hp).mpr hc)]
      · rw [if_neg hc, if_neg (fun h => hc ((hsame px py hp).mp h))]

theorem loadPixels_spec (W H junk : Nat) (bytes : List Nat) (d : Display) (px py : Nat) :
    loadPixels W H junk bytes d px py =
      if px < W ∧ py < H ∧ 2 * (py * W + px) < bytes.length
      then pixelAt junk bytes (py * W + px) else d px py := by
  have hinv : LoadInv W junk bytes d (H * W)
      (forLoop H (fun y s => forLoop W (fun x s => loadPixel junk x y s) s) (bytes, d)) := by
    apply forLoop_inv (fun y s => LoadInv W junk bytes d (y * W) s)
    · refine ⟨by simp, ?_⟩
      intro qx qy
      have : ¬ (qx < W ∧ qy * W + qx < 0 * W ∧ 2 * (qy * W + qx) < bytes.length) := by omega
      rw [if_neg this]
    · intro y s _ hs
      have := forLoop_inv (fun k t => LoadInv W junk bytes d (y * W + k) t) W
        (fun x s => loadPixel junk x y s) s hs
        (fun k t hk ht => loadPixel_step W junk bytes d y k hk t ht)
      simp only at this
      rw [Nat.add_mul, Nat.one_mul]
      exact this
  unfold loadPixels
  rw [hinv.2 px py]
  by_cases hpx : px < W
  · have := idx_lt W H px py hpx
    by_cases hc : px < W ∧ py < H ∧ 2 * (py * W + px) < bytes.length
    · rw [if_pos hc, if_pos ⟨hc.1, this.mpr hc.2.1, hc.2.2⟩]
    · rw [if_neg hc, if_neg (fun h => hc ⟨h.1, this.mp h.2.1, h.2.2⟩)]
  · rw [if_neg (fun h => hpx h.1), if_neg (fun h => hpx h.1)]

theorem savePixel_step (W H room : Nat) (d : Display) (y k : Nat) (hk : k < W) (hy : y < H)
    (hroom : 2 * W * H ≤ room) (f : List Nat) (hinv : SaveInv W d (y * W + k) f) :
    SaveInv W d (y * W + k + 1) (fileWrite room f (le16 (readPixel d k y))) := by
  obtain ⟨hlen, hpix⟩ := hinv
  have hm : y * W + k < H * W := (idx_lt W H k y hk).mpr hy
  have hHW : 2 * W * H = 2 * (H * W) := by rw [Nat.mul_assoc, Nat.mul_comm W H]
  have hw : fileWrite room f (le16 (readPixel d k y)) = f ++ le16 (readPixel d k y) := by
    unfold fileWrite
    rw [List.take_of_length_le]
    simp only [le16, List.length_cons, List.length_nil]
    omega
  rw [hw]
  refine ⟨by simp [hlen, le16]; omega, ?_⟩
  intro px py hpx hidx
  by_cases hold : py * W + px < y * W + k
  · rw [List.drop_append_of_le_length (by omega), List.take_append_of_le_length]
    · exact hpix px py hpx hold
    · rw [List.length_drop]; omega
  · have he : py * W + px = y * W + k := by omega
    obtain ⟨rfl, rfl⟩ := idx_unique W px py k y hpx hk he
    rw [← hlen, List.drop_left]
    rfl

theorem saveImage_bytes (W H room : Nat) (d : Display) (hroom : 2 * W * H ≤ room) :
    SaveInv W d (H * W) (forLoop H (fun y f =>
      forLoop W (fun x f => fileWrite room f (le16 (readPixel d x y))) f) []) := by
  have hgen : ∀ n, n ≤ H → SaveInv W d (n * W) (forLoop n (fun y f =>
      forLoop W (fun x f => fileWrite room f (le16 (readPixel d x y))) f) []) := by
    intro n
    induction n with
    | zero =>
      intro _
      refine ⟨by simp [forLoop_zero], ?_⟩
      intro px py _ h
      omega
    | succ y ih =>
      intro hy
      rw [forLoop_succ]
      have := forLoop_inv (fun k t => SaveInv W d (y * W + k) t) W
        (fun x f => fileWrite room f (le16 (readPixel d x y))) _ (ih (by omega))
        (fun k t hk ht => savePixel_step W H room d y k hk (by omega) hroom t ht)
      simp only at this
      rw [Nat.add_mul, Nat.one_mul]
      exact this
  exact hgen H (le_refl H)

theorem fromLe16_le16 (c : Nat) (h : c < 65536) : fromLe16 (le16 c ++ []) = c := by
  simp only [le16, fromLe16, List.append_nil, List.getD_cons_zero, List.getD_cons_succ]
  omega

theorem load_after_save (W H room junk : Nat) (d e : Display) (hroom : 2 * W * H ≤ room)
    (px py : Nat) (hpx : px < W) (hpy : py < H) :
    loadPixels W H junk (forLoop H (fun y f =>
      forLoop W (fun x f => fileWrite room f (le16 (readPixel d x y))) f) []) e px py
      = readPixel d px py := by
  obtain ⟨hlen, hpix⟩ := saveImage_bytes W H room d hroom
  have hidx : py * W + px < H * W := (idx_lt W H px py hpx).mpr hpy
  rw [loadPixels_spec, if_pos ⟨hpx, hpy, by omega⟩]
  unfold pixelAt
  rw [hpix px py hpx hidx]
  have hl : min 2 (List.drop (2 * (py * W + px)) (forLoop H (fun y f =>
      forLoop W (fun x f => fileWrite room f (le16 (readPixel d x y))) f) [])).length = 2 := by
    rw [List.length_drop]; omega
  rw [hl]
  have : List.drop 2 (le16 junk) = [] := rfl
  rw [this]
  exact fromLe16_le16 _ (Nat.mod_lt _ (by decide))

/-! ## Canvas persistence -/

theorem paintRect_outside (b : TFT_eSPI_Button) (inv : Bool) (e : Display) (px py : Nat)
    (h : b.contains px py = false) : paintRect b inv e px py = e px py := by
  simp [paintRect, h]

theorem drawUI_paint_outside (paint : TFT_eSPI_Button → Bool → Display → Display)
    (hpaint : ∀ b inv e px py, b.contains px py = false → paint b inv e px py = e px py)
    (W : Nat) (e : Display) (px py : Nat) (h : inButtonArea W px py = false) :
    drawUI_paint paint W e px py = e px py := by
  unfold inButtonArea at h
  simp only [Bool.or_eq_false_iff] at h
  obtain ⟨⟨⟨⟨hc, h1⟩, h2⟩, h3⟩, h4⟩ := h
  have hcb : (drawUI W Globals.init).1.colorButtons =
      [drawUI_colorButton 0, drawUI_colorButton 1, drawUI_colorButton 2, drawUI_colorButton 3,
       drawUI_colorButton 4, drawUI_colorButton 5] := rfl
  rw [hcb] at hc
  simp only [List.any_cons, List.any_nil, Bool.or_false, Bool.or_eq_false_iff] at hc
  obtain ⟨c0, c1, c2, c3, c4, c5⟩ := hc
  unfold drawUI_paint
  have hloop : ∀ e0 : Display, forLoop 6 (fun i acc =>
      paint ((drawUI W Globals.init).1.colorButtons.getD i TFT_eSPI_Button.zero) false acc) e0
      = paint (drawUI_colorButton 5) false (paint (drawUI_colorButton 4) false
        (paint (drawUI_colorButton 3) false (paint (drawUI_colorButton 2) false
        (paint (drawUI_colorButton 1) false (paint (drawUI_colorButton 0) false e0))))) :=
    fun _ => rfl
  rw [hloop]
  have hg0 : (drawUI W Globals.init).1.colorButtons.getD 0 TFT_eSPI_Button.zero
      = drawUI_colorButton 0 := rfl
  rw [hg0, hpaint _ _ _ _ _ c0, hpaint _ _ _ _ _ h4, hpaint _ _ _ _ _ h3, hpaint _ _ _ _ _ h2,
    hpaint _ _ _ _ _ h1, hpaint _ _ _ _ _ c5, hpaint _ _ _ _ _ c4, hpaint _ _ _ _ _ c3,
    hpaint _ _ _ _ _ c2, hpaint _ _ _ _ _ c1, hpaint _ _ _ _ _ c0]

theorem loadImage_display (paint : TFT_eSPI_Button → Bool → Display → Display)
    (W H junk : Nat) (g : Globals) (d : Display) (fl : Flash) (bytes : List Nat)
    (hm : fl.mountOk = true) (hr : fl.openReadOk = true) (himg : fl.image = some bytes) :
    loadImage paint W H junk g d fl =
      ((drawUI W g).1, drawUI_paint paint W (loadPixels W H junk bytes d),
       [Call.fsOpen IMAGE_FILE "r", Call.println "Loading image from SPIFFS...",
        Call.fsClose IMAGE_FILE, Call.println "Image loaded!"] ++ (drawUI W g).2) := by
  simp [loadImage, hm, hr, himg]

theorem saveImage_image (W H : Nat) (d : Display) (fl : Flash)
    (hm : fl.mountOk = true) (hw : fl.openWriteOk = true) :
    (saveImage W H d fl).1 =
      { fl with image := some (forLoop H (fun y f =>
          forLoop W (fun x f => fileWrite fl.room f (le16 (readPixel d x y))) f) []) } := by
  simp [saveImage, hm, hw]

theorem load_of_save (paint : TFT_eSPI_Button → Bool → Display → Display)
    (W H junk : Nat) (g : Globals) (d e : Display) (fl : Flash)
    (hm : fl.mountOk = true) (hw : fl.openWriteOk = true) (hr : fl.openReadOk = true) :
    (loadImage paint W H junk g e (saveImage W H d fl).1).2.1 =
      drawUI_paint paint W (loadPixels W H junk (forLoop H (fun y f =>
          forLoop W (fun x f => fileWrite fl.room f (le16 (readPixel d x y))) f) []) e) := by
  rw [saveImage_image W H d fl hm hw]
  rw [loadImage_display paint W H junk g e
    { fl with image := some (forLoop H (fun y f =>
          forLoop W (fun x f => fileWrite fl.room f (le16 (readPixel d x y))) f) []) }
    _ hm hr rfl]

/-- C7, the claim as stated fails: on the 320 by 240 display, with colour
button 0 shown unpressed (red), `saveImage` and then `loadImage`, both
succeeding, leave the centre (20, 20) of that button white although it was
red at the time of the save: `loadImage` ends with `drawUI`, which draws the
button pressed (filled with its text colour). -/
theorem load_repaints_buttons :
    readPixel clearedCanvas 20 20 = TFT_RED ∧
    (loadImage paintRect 320 240 0 (afterSetup 320) clearedCanvas
      (saveImage 320 240 clearedCanvas flashEmpty).1).2.1 20 20 = TFT_WHITE := by
  refine ⟨by decide, ?_⟩
  rw [load_of_save paintRect 320 240 0 (afterSetup 320) clearedCanvas clearedCanvas flashEmpty
    rfl rfl rfl]
  rfl

/-- C7, amended.  With the file system mounted, the file opened for writing
and for reading, room for `2 * W * H` bytes and the same `W` and `H` at both
times: `loadImage` after `saveImage` gives every pixel of the display the
value it had at the time of the save, and then `drawUI` repaints the ten
buttons.  So every pixel outside the button rectangles ends with its value
at the time of the save, provided a `drawButton` paints inside the bounding
rectangle of its button only. -/
theorem canvas_round_trip (paint : TFT_eSPI_Button → Bool → Display → Display)
    (W H junk : Nat) (g : Globals) (d e : Display) (fl : Flash)
    (hm : fl.mountOk = true) (hw : fl.openWriteOk = true) (hr : fl.openReadOk = true)
    (hroom : 2 * W * H ≤ fl.room)
    (hpaint : ∀ b inv c px py, b.contains px py = false → paint b inv c px py = c px py) :
    ∃ restored : Display,
      (loadImage paint W H junk g e (saveImage W H d fl).1).2.1 = drawUI_paint paint W restored ∧
      (∀ px py, px < W → py < H → restored px py = readPixel d px py) ∧
      (∀ px py, px < W → py < H → inButtonArea W px py = false →
        (loadImage paint W H junk g e (saveImage W H d fl).1).2.1 px py = readPixel d px py) := by
  rw [load_of_save paint W H junk g d e fl hm hw hr]
  refine ⟨_, rfl, ?_, ?_⟩
  · intro px py hpx hpy
    exact load_after_save W H fl.room junk d e hroom px py hpx hpy
  · intro px py hpx hpy hout
    rw [drawUI_paint_outside paint hpaint W _ px py hout]
    exact load_after_save W H fl.room junk d e hroom px py hpx hpy

theorem canvas_round_trip_witness :
    ∃ restored : Display,
      (loadImage paintRect 320 240 0 (afterSetup 320) blackCanvas
        (saveImage 320 240 clearedCanvas flashEmpty).1).2.1 = drawUI_paint paintRect 320 restored ∧
      (∀ px py, px < 320 → py < 240 → restored px py = readPixel clearedCanvas px py) ∧
      (∀ px py, px < 320 → py < 240 → inButtonArea 320 px py = false →
        (loadImage paintRect 320 240 0 (afterSetup 320) blackCanvas
          (saveImage 320 240 clearedCanvas flashEmpty).1).2.1 px py
          = readPixel clearedCanvas px py) :=
  canvas_round_trip paintRect 320 240 0 (afterSetup 320) clearedCanvas blackCanvas flashEmpty
    rfl rfl rfl (by decide) paintRect_outside

/-- C8, the claim as stated fails: with a canvas file of one byte on the
320 by 240 display, `loadImage` prints the same "Image loaded!" line as for
a complete file and nothing else about the outcome, and pixel (0, 0), for
which only one of two bytes could be read, is drawn from that byte. -/
theorem short_file_reports_loaded :
    (loadImage paintRect 320 240 0 (afterSetup 320) blackCanvas flashOneByte).2.2 =
      [Call.fsOpen IMAGE_FILE "r", Call.println "Loading image from SPIFFS...",
       Call.fsClose IMAGE_FILE, Call.println "Image loaded!"] ++ drawUI_calls ∧
    blackCanvas 0 0 = 0 ∧
    (loadImage paintRect 320 240 0 (afterSetup 320) blackCanvas flashOneByte).2.1 0 0 = 52 := by
  rw [loadImage_display paintRect 320 240 0 (afterSetup 320) blackCanvas flashOneByte [52]
    rfl rfl rfl]
  refine ⟨rfl, rfl, ?_⟩
  have hout : inButtonArea 320 0 0 = false := by decide
  have h1 := drawUI_paint_outside paintRect paintRect_outside 320
    (loadPixels 320 240 0 [52] blackCanvas) 0 0 hout
  dsimp only
  rw [h1]
  rw [loadPixels_spec 320 240 0 [52] blackCanvas 0 0]
  decide

/-- C8, amended.  For every stored canvas file, in particular one with fewer
than `2 * W * H` bytes: the loops of `loadImage` leave unmodified every
pixel for which the file has no byte left (it is not zero filled), and
after the `drawUI` that follows such a pixel outside the button rectangles
still has its old value, provided a `drawButton` paints inside the bounding
rectangle of its button only.  `loadImage` returns no status: its output is
the two lines of a complete load. -/
theorem short_file_load (paint : TFT_eSPI_Button → Bool → Display → Display)
    (W H junk : Nat) (g : Globals) (d : Display) (fl : Flash) (bytes : List Nat)
    (hm : fl.mountOk = true) (hr : fl.openReadOk = true) (himg : fl.image = some bytes)
    (hpaint : ∀ b inv c px py, b.contains px py = false → paint b inv c px py = c px py) :
    (∀ px py, px < W → py < H → bytes.length ≤ 2 * (py * W + px) →
      loadPixels W H junk bytes d px py = d px py ∧
      (inButtonArea W px py = false →
        (loadImage paint W H junk g d fl).2.1 px py = d px py)) ∧
    (loadImage paint W H junk g d fl).2.1 = drawUI_paint paint W (loadPixels W H junk bytes d) ∧
    (loadImage paint W H junk g d fl).2.2 =
      [Call.fsOpen IMAGE_FILE "r", Call.println "Loading image from SPIFFS...",
       Call.fsClose IMAGE_FILE, Call.println "Image loaded!"] ++ drawUI_calls := by
  rw [loadImage_display paint W H junk g d fl bytes hm hr himg]
  refine ⟨?_, rfl, rfl⟩
  intro px py hpx hpy hlen
  have hkeep : loadPixels W H junk bytes d px py = d px py := by
    rw [loadPixels_spec, if_neg (by omega)]
  refine ⟨hkeep, ?_⟩
  intro hout
  exact (drawUI_paint_outside paint hpaint W _ px py hout).trans hkeep

theorem short_file_load_witness :
    (∀ px py, px < 320 → py < 240 → [52].length ≤ 2 * (py * 320 + px) →
      loadPixels 320 240 0 [52] blackCanvas px py = blackCanvas px py ∧
      (inButtonArea 320 px py = false →
        (loadImage paintRect 320 240 0 (afterSetup 320) blackCanvas flashOneByte).2.1 px py
          = blackCanvas px py)) ∧
    (loadImage paintRect 320 240 0 (afterSetup 320) blackCanvas flashOneByte).2.1 =
      drawUI_paint paintRect 320 (loadPixels 320 240 0 [52] blackCanvas) ∧
    (loadImage paintRect 320 240 0 (afterSetup 320) blackCanvas flashOneByte).2.2 =
      [Call.fsOpen IMAGE_FILE "r", Call.println "Loading image from SPIFFS...",
       Call.fsClose IMAGE_FILE, Call.println "Image loaded!"] ++ drawUI_calls :=
  short_file_load paintRect 320 240 0 (afterSetup 320) blackCanvas flashOneByte [52]
    rfl rfl rfl paintRect_outside

/-! ## Calibration -/

theorem touch_calibrate_fits (behind : Option Nat) (stack fresh : List Nat) (fl : Flash)
    (content : List Nat)
    (hm : fl.mountOk = true) (hcal : fl.cal = some content) (hr : fl.openReadOk = true)
    (hfits : content.length ≤ 10) :
    ∃ mem0 : List Nat, mem0.length = stack.length ∧
    touch_calibrate behind stack fresh fl =
      (if fl.openWriteOk then
         { fl with cal := some (fileWrite fl.room []
            ((fresh.take 10 ++
              (content.take 14 ++ mem0.drop (min 14 content.length)).drop 10).take 14)) }
       else fl,
       [Call.fsOpen CALIBRATION_FILE "r", Call.fsClose CALIBRATION_FILE] ++
       [Call.println "Calibration needed, starting calibration...",
        Call.fillScreen TFT_BLACK, Call.setCursor 20 0, Call.setTextFont 2, Call.setTextSize 1,
        Call.setTextColor TFT_WHITE TFT_BLACK, Call.calibrateTouch,
        Call.setTextColor TFT_GREEN TFT_BLACK, Call.fsOpen CALIBRATION_FILE "w"] ++
       (if fl.openWriteOk then
          [Call.fsWrite CALIBRATION_FILE ((fresh.take 10 ++
              (content.take 14 ++ mem0.drop (min 14 content.length)).drop 10).take 14),
           Call.fsClose CALIBRATION_FILE,
           Call.println "Calibration data saved to SPIFFS."]
        else []) ++
       [Call.fillScreen TFT_BLACK]) := by
  have hn : ¬ (min 14 content.length = 14) := by omega
  cases behind with
  | none =>
    refine ⟨stack, rfl, ?_⟩
    unfold touch_calibrate
    simp only [hm, hcal, hr, Bool.not_true, Bool.false_eq_true, if_false, if_true, hn]
  | some k =>
    refine ⟨stack.set (10 + k) 1, List.length_set _ _ _, ?_⟩
    have hk : ¬ (10 + k < min 14 content.length) := by omega
    unfold touch_calibrate
    simp only [hm, hcal, hr, Bool.not_true, Bool.false_eq_true, if_false, if_true, hn, hk]

/-- While the record fits the array (at most 10 bytes are read), wherever
`calibrationNeeded` lies: `touch_calibrate` makes no call of `setTouch`, runs
`calibrateTouch`, and after it opens the calibration file for writing; when
that open succeeds it writes the record, which has 14 bytes and starts with
the 10 fresh bytes of `calData`. -/
theorem record_within_array_recalibrates (behind : Option Nat) (stack fresh : List Nat)
    (fl : Flash) (content : List Nat)
    (hm : fl.mountOk = true) (hcal : fl.cal = some content) (hr : fl.openReadOk = true)
    (hfits : content.length ≤ 10) :
    (∀ c ∈ (touch_calibrate behind stack fresh fl).2, c.isSetTouch = false) ∧
    (∃ before after,
      (touch_calibrate behind stack fresh fl).2 = before ++ Call.calibrateTouch :: after ∧
      Call.fsOpen CALIBRATION_FILE "w" ∈ after ∧
      (fl.openWriteOk = true → ∃ record,
        Call.fsWrite CALIBRATION_FILE record ∈ after ∧
        (touch_calibrate behind stack fresh fl).1.cal = some (fileWrite fl.room [] record) ∧
        (fresh.length = 10 → stack.length = 14 →
          record.length = 14 ∧ record.take 10 = fresh))) := by
  obtain ⟨mem0, hmem, hrun⟩ := touch_calibrate_fits behind stack fresh fl content hm hcal hr hfits
  rw [hrun]
  constructor
  · intro c hc
    simp only [List.mem_append, List.mem_cons, List.mem_singleton, List.not_mem_nil,
      or_false] at hc
    rcases hc with ((h | h) | h) | h
    · rcases h with rfl | rfl <;> rfl
    · rcases h with rfl | rfl | rfl | rfl | rfl | rfl | rfl | rfl | rfl <;> rfl
    · split at h
      · simp only [List.mem_cons, List.mem_singleton, List.not_mem_nil, or_false] at h
        rcases h with rfl | rfl | rfl <;> rfl
      · simp at h
    · subst h; rfl
  · refine ⟨[Call.fsOpen CALIBRATION_FILE "r", Call.fsClose CALIBRATION_FILE,
        Call.println "Calibration needed, starting calibration...",
        Call.fillScreen TFT_BLACK, Call.setCursor 20 0, Call.setTextFont 2, Call.setTextSize 1,
        Call.setTextColor TFT_WHITE TFT_BLACK],
       [Call.setTextColor TFT_GREEN TFT_BLACK, Call.fsOpen CALIBRATION_FILE "w"] ++
       (if fl.openWriteOk then
          [Call.fsWrite CALIBRATION_FILE ((fresh.take 10 ++
              (content.take 14 ++ mem0.drop (min 14 content.length)).drop 10).take 14),
           Call.fsClose CALIBRATION_FILE,
           Call.println "Calibration data saved to SPIFFS."]
        else []) ++
       [Call.fillScreen TFT_BLACK], ?_, ?_, ?_⟩
    · simp only [List.append_assoc, List.cons_append, List.nil_append, List.singleton_append]
    · simp
    · intro hw
      refine ⟨(fresh.take 10 ++
          (content.take 14 ++ mem0.drop (min 14 content.length)).drop 10).take 14, ?_, ?_, ?_⟩
      · simp [hw]
      · simp [hw]
      · intro hf hs
        have h10 : fresh.take 10 = fresh := List.take_of_length_le (by omega)
        rw [h10]
        constructor
        · simp only [List.length_take, List.length_append, List.length_drop]
          omega
        · rw [List.take_take]
          simp only [Nat.reduceLeDiff, min_eq_left]
          rw [List.take_append_of_le_length (by omega)]
          exact List.take_of_length_le (by omega)

/-- C9. On the failing input: the calibration file exists and holds the 12
bytes 1, ..., 10, 0, 0, and `calibrationNeeded` lies directly behind
`calData`.  The read yields 12 bytes, fewer than 14, and its last two bytes
overrun the 10 byte array and clear `calibrationNeeded`: `touch_calibrate`
closes the file and returns, with no call of `setTouch`, no call of
`calibrateTouch` and no write; the file system is left as it was.  A file of
6 bytes, which fits the array, makes the same build run `calibrateTouch`. -/
theorem overrun_clears_calibrationNeeded :
    flashTwelveCal.cal = some [1, 2, 3, 4, 5, 6, 7, 8, 9, 10, 0, 0] ∧
    touch_calibrate (some 0) (List.replicate 14 0) [10, 20, 30, 40, 50, 60, 70, 80, 90, 100]
      flashTwelveCal =
      (flashTwelveCal, [Call.fsOpen CALIBRATION_FILE "r", Call.fsClose CALIBRATION_FILE]) ∧
    Call.calibrateTouch ∉ (touch_calibrate (some 0) (List.replicate 14 0)
      [10, 20, 30, 40, 50, 60, 70, 80, 90, 100] flashTwelveCal).2 ∧
    Call.calibrateTouch ∈ (touch_calibrate (some 0) (List.replicate 14 0)
      [10, 20, 30, 40, 50, 60, 70, 80, 90, 100] flashShortCal).2 := by
  have h : touch_calibrate (some 0) (List.replicate 14 0)
      [10, 20, 30, 40, 50, 60, 70, 80, 90, 100] flashTwelveCal =
      (flashTwelveCal, [Call.fsOpen CALIBRATION_FILE "r", Call.fsClose CALIBRATION_FILE]) := rfl
  refine ⟨rfl, h, ?_, ?_⟩
  · rw [h]
    simp
  · obtain ⟨-, before, after, hrun, -⟩ := record_within_array_recalibrates (some 0)
      (List.replicate 14 0) [10, 20, 30, 40, 50, 60, 70, 80, 90, 100] flashShortCal
      [1, 2, 3, 4, 5, 6] rfl rfl rfl (by decide)
    rw [hrun]
    simp

/-- C10. On the failing input: after `setup` on a 320 pixel wide display, a
pressed sample at (300, 50) is inside the Calibrate button and inside no
colour button nor the Clear button, and `loop` calls `touch_calibrate`; with
a complete 14 byte calibration file stored, `touch_calibrate` reads it, calls
`setTouch` and returns without any call of `calibrateTouch`, wherever
`calibrationNeeded` lies relative to `calData`. -/
theorem calibrate_button_skips_calibration (behind : Option Nat) :
    (afterSetup 320).calibrateButton.contains 300 50 = true ∧
    colorHit (afterSetup 320) 300 50 = none ∧
    (afterSetup 320).clearButton.contains 300 50 = false ∧
    (loop 320 (some (300, 50)) 1000 (afterSetup 320)).2 = [Call.touch_calibrate] ∧
    (touch_calibrate behind (List.replicate 14 0) [10, 20, 30, 40, 50, 60, 70, 80, 90, 100]
      flashCalibrated).2 =
      [Call.fsOpen CALIBRATION_FILE "r", Call.setTouch [1, 2, 3, 4, 5, 6, 7, 8, 9, 10],
       Call.println "Calibration data loaded from SPIFFS.", Call.fsClose CALIBRATION_FILE] ∧
    Call.calibrateTouch ∉ (touch_calibrate behind (List.replicate 14 0)
      [10, 20, 30, 40, 50, 60, 70, 80, 90, 100] flashCalibrated).2 := by
  have h : (touch_calibrate behind (List.replicate 14 0)
      [10, 20, 30, 40, 50, 60, 70, 80, 90, 100] flashCalibrated).2 =
      [Call.fsOpen CALIBRATION_FILE "r", Call.setTouch [1, 2, 3, 4, 5, 6, 7, 8, 9, 10],
       Call.println "Calibration data loaded from SPIFFS.", Call.fsClose CALIBRATION_FILE] := by
    cases behind <;> rfl
  refine ⟨by decide, by decide, by decide, by decide, h, ?_⟩
  rw [h]
  simp

end TouchPaint
